import Mathlib

/-!
Verification of the galera media-gallery server's session/token manager and
media scanner, as a shallow embedding of the Rust source.

Conventions of the embedding:
* the relational store is a record of in-memory tables (lists of rows, in
  insertion order); a diesel `first().optional()` query is `List.find?`, a
  `get_results` query is `List.filter`, an `insert_into` appends a row and
  draws its auto-increment id from a per-table counter (MySQL
  `LAST_INSERT_ID()` is the id just drawn on the same connection);
* i32 / i64 database integers are `Int` (no arithmetic near the width bound
  occurs in the modelled code) and timestamps are `Int` seconds; each
  operation receives the wall-clock instant `now` that the source reads from
  `Utc::now()`;
* random values (`Uuid::new_v4`) are explicit parameters; row `uuid` columns
  are omitted because no modelled operation ever reads them back;
* the HS512 JWT of the `jsonwebtoken` crate is a record of its payload and a
  flag saying whether its signature verifies under the server secret;
  `Validation::new(Algorithm::HS512)` checks the signature and then `exp`
  with the crate's default 60-second leeway;
* the one-pass SHA-512 hex digest of the `sha2` crate is an opaque external
  function `h : String → String`, passed explicitly to the definitions that
  call it (all modelled code uses digests only through equality);
* database interaction failures (`interact` / query errors) are modelled by
  explicit `Bool` success flags on the fallible routes; a Rust `panic!`
  escaping a handler is the 500 outcome.
-/

namespace Galera

/-- `user` table row (src/src/models.rs `User`); `uuid` column omitted. -/
structure UserRow where
  id : Int
  username : String
  email : String
  password : String
deriving Repr, DecidableEq

/-- `auth_refresh_token` table row (src/src/models.rs `AuthRefreshToken`);
`uuid` column omitted. -/
structure AuthRefreshTokenRow where
  id : Int
  user_id : Int
  refresh_token : String
  expiration_time : Int
deriving Repr, DecidableEq

/-- `auth_access_token` table row (src/src/models.rs `AuthAccessToken`);
`uuid` column omitted. -/
structure AuthAccessTokenRow where
  id : Int
  refresh_token_id : Int
  access_token : String
  expiration_time : Int
deriving Repr, DecidableEq

/-- Token-subsystem view of the relational store: the three tables the
session/token manager touches, with auto-increment counters. -/
structure TokenStore where
  users : List UserRow
  refreshTokens : List AuthRefreshTokenRow
  accessTokens : List AuthAccessTokenRow
  rtNext : Int
  atNext : Int
deriving Repr, DecidableEq

/-- src/src/db/users.rs `get_user_username`: select `username` by user id. -/
def get_user_username (st : TokenStore) (user_id : Int) : Option String :=
  (st.users.find? (fun u => u.id == user_id)).map (fun u => u.username)

/-- src/src/db/users.rs `get_user_by_id`. -/
def get_user_by_id (st : TokenStore) (user_id : Int) : Option UserRow :=
  st.users.find? (fun u => u.id == user_id)

/-- src/src/db/users.rs `check_user_login_username`: id of the first user row
whose username and (already hashed) password both match. -/
def check_user_login_username (st : TokenStore) (username password : String) :
    Option Int :=
  (st.users.find? (fun u => u.username == username && u.password == password)).map
    (fun u => u.id)

/-- src/src/db/users.rs `check_user_login_email`. -/
def check_user_login_email (st : TokenStore) (email password : String) :
    Option Int :=
  (st.users.find? (fun u => u.email == email && u.password == password)).map
    (fun u => u.id)

/-- src/src/db/tokens.rs `select_refresh_token_expiration`: expiration time of
the first refresh-token row with the given token string. -/
def select_refresh_token_expiration (st : TokenStore) (refresh_token : String) :
    Option Int :=
  (st.refreshTokens.find? (fun r => r.refresh_token == refresh_token)).map
    (fun r => r.expiration_time)

/-- Modelled from the spec: `FindRefreshToken(tokenValue) -> (id, ...)?`.
The route src/src/routes/mod.rs:351 calls `db::tokens::select_refresh_token_id`,
whose definition is absent from src/ (src/src/db/tokens.rs only carries the
sibling `select_refresh_token_session` returning `(id, user_id)`); per the
spec's store interface it selects the row id by refresh-token string value. -/
def select_refresh_token_id (st : TokenStore) (refresh_token : String) :
    Option Int :=
  (st.refreshTokens.find? (fun r => r.refresh_token == refresh_token)).map
    (fun r => r.id)

/-- src/src/db/tokens.rs `delete_obsolete_access_tokens`: delete every
access-token row under the given refresh-token id. -/
def delete_obsolete_access_tokens (st : TokenStore) (refresh_token_id : Int) :
    TokenStore :=
  { st with
    accessTokens :=
      st.accessTokens.filter (fun a => !(a.refresh_token_id == refresh_token_id)) }

/-- src/src/db/tokens.rs `insert_access_token` plus
`NewAuthAccessToken::new` (expiration 15 minutes = 900 s from now); returns
the store and `LAST_INSERT_ID()`. -/
def insert_access_token (st : TokenStore) (refresh_token_id : Int)
    (access_token : String) (now : Int) : TokenStore × Int :=
  ({ st with
      accessTokens := st.accessTokens ++
        [⟨st.atNext, refresh_token_id, access_token, now + 900⟩],
      atNext := st.atNext + 1 },
    st.atNext)

/-- src/src/db/tokens.rs `insert_session_tokens` plus
`NewAuthRefreshToken::new` (expiration 1 hour = 3600 s from now): one
transaction inserting the refresh-token row then the access-token row under
it; returns the store and the two `LAST_INSERT_ID()` values. -/
def insert_session_tokens (st : TokenStore) (user_id : Int)
    (refresh_token access_token : String) (now : Int) :
    TokenStore × (Int × Int) :=
  ({ st with
      refreshTokens := st.refreshTokens ++
        [⟨st.rtNext, user_id, refresh_token, now + 3600⟩],
      accessTokens := st.accessTokens ++
        [⟨st.atNext, st.rtNext, access_token, now + 900⟩],
      rtNext := st.rtNext + 1,
      atNext := st.atNext + 1 },
    (st.rtNext, st.atNext))

/-- src/src/db/tokens.rs `delete_session_by_refresh_token`: one transaction
selecting the refresh-token row id by string value, deleting the access-token
rows under it, then the refresh-token row itself; `false` when no row
matched. -/
def delete_session_by_refresh_token (st : TokenStore) (refresh_token : String) :
    TokenStore × Bool :=
  match st.refreshTokens.find? (fun r => r.refresh_token == refresh_token) with
  | none => (st, false)
  | some r =>
    ({ st with
        accessTokens :=
          st.accessTokens.filter (fun a => !(a.refresh_token_id == r.id)),
        refreshTokens :=
          st.refreshTokens.filter (fun q => !(q.id == r.id)) },
      true)

/-- src/src/auth/token.rs `Claims`: the JWT payload. -/
structure Claims where
  exp : Int
  iat : Int
  user_id : Int
  refresh_token : String
  access_token : String
deriving Repr, DecidableEq

/-- src/src/auth/token.rs `ClaimsEncoded`: an encoded bearer token, as its
payload plus whether its HS512 signature verifies under the server secret. -/
structure ClaimsEncoded where
  claims : Claims
  sigValid : Bool
deriving Repr, DecidableEq

/-- Error kinds of `jsonwebtoken::decode` distinguished by the source:
`ErrorKind::ExpiredSignature` versus everything else. -/
inductive JwtErrorKind where
  | expiredSignature
  | invalidToken
deriving Repr, DecidableEq

/-- Default `exp` leeway (seconds) of `jsonwebtoken`'s
`Validation::new(Algorithm::HS512)`. -/
def jwtLeeway : Int := 60

/-- src/src/auth/token.rs `ClaimsEncoded::decode`: verify the HS512 signature,
then validate `exp` against the current time with the default leeway. -/
def ClaimsEncoded.decode (e : ClaimsEncoded) (now : Int) :
    Except JwtErrorKind Claims :=
  if !e.sigValid then .error .invalidToken
  else if e.claims.exp < now - jwtLeeway then .error .expiredSignature
  else .ok e.claims

/-- src/src/auth/token.rs `ClaimsEncoded::decode_without_validation`: verify
the signature only (`validate_exp = false`). -/
def ClaimsEncoded.decode_without_validation (e : ClaimsEncoded) :
    Except JwtErrorKind Claims :=
  if !e.sigValid then .error .invalidToken else .ok e.claims

/-- src/src/auth/token.rs `Claims::new`: fresh payload for a user, expiring in
15 minutes; the two random token strings are explicit parameters. -/
def Claims.new (user_id : Int) (now : Int) (refresh_token access_token : String) :
    Claims :=
  { exp := now + 900, iat := now, user_id := user_id,
    refresh_token := refresh_token, access_token := access_token }

/-- src/src/auth/token.rs `Claims::from_existing`: a fresh payload for the
same user reusing the old payload's refresh token. -/
def Claims.from_existing (token : Claims) (now : Int)
    (refresh_token access_token : String) : Claims :=
  { Claims.new token.user_id now refresh_token access_token with
      refresh_token := token.refresh_token }

/-- src/src/auth/token.rs `Claims::encode`: sign the payload with the server
secret (the signature of a freshly minted token always verifies). -/
def Claims.encode (c : Claims) : ClaimsEncoded :=
  { claims := c, sigValid := true }

/-- src/src/auth/token.rs `Claims::is_expired`. -/
def Claims.is_expired (c : Claims) (now : Int) : Bool :=
  c.exp < now

/-- src/src/auth/token.rs `Claims::is_refresh_token_expired`: a missing
refresh-token row counts as expired. -/
def Claims.is_refresh_token_expired (c : Claims) (st : TokenStore) (now : Int) :
    Bool :=
  match select_refresh_token_expiration st c.refresh_token with
  | none => true
  | some e => e < now

/-- src/src/auth/token.rs `Claims::is_valid`: not expired and the referenced
user still exists. -/
def Claims.is_valid (c : Claims) (st : TokenStore) (now : Int) : Bool :=
  !(c.is_expired now) && (get_user_username st c.user_id).isSome

/-- src/src/auth/token.rs `auth` middleware: decode the bearer token with full
validation; on success require `is_valid`, else map `ExpiredSignature` to 401
and every other decode error to 422. -/
def auth (st : TokenStore) (bearer : ClaimsEncoded) (now : Int) :
    Except Nat Claims :=
  match bearer.decode now with
  | .ok claims =>
    if claims.is_valid st now then .ok claims else .error 401
  | .error e =>
    match e with
    | .expiredSignature => .error 401
    | _ => .error 422

/-- src/src/auth/login.rs `UserLogin`: the login request body. -/
structure UserLogin where
  username_or_email : String
  password : String
deriving Repr, DecidableEq

/-- src/src/auth/login.rs `UserLogin::is_email`: Rust's
`str::contains('@')`, i.e. the character `@` occurs in the identifier
(modelled over the string's character list, which evaluates in the
kernel). -/
def UserLogin.is_email (ul : UserLogin) : Bool :=
  ul.username_or_email.data.contains '@'

/-- src/src/auth/login.rs `UserLogin::hash_password`: replace the password by
its one-pass SHA-512 hex digest `h`. -/
def UserLogin.hash_password (h : String → String) (ul : UserLogin) : UserLogin :=
  { ul with password := h ul.password }

/-- src/src/auth/login.rs `UserLogin::check`: dispatch on `is_email`. -/
def UserLogin.check (ul : UserLogin) (st : TokenStore) : Option Int :=
  if ul.is_email then
    check_user_login_email st ul.username_or_email ul.password
  else
    check_user_login_username st ul.username_or_email ul.password

/-- src/src/auth/login.rs `LoginResponse` (user info plus the encoded bearer
token). -/
structure LoginResponse where
  username : String
  email : String
  bearer_token : ClaimsEncoded
deriving Repr, DecidableEq

/-- src/src/routes/mod.rs `login` route (with src/src/auth/login.rs
`UserLogin::login` and `issue_login_response` inlined): hash the supplied
password, look the user up, insert the refresh/access token pair in one
transaction, and answer with the encoded fresh `Claims`.

Fallible variant: `okCheck` is the success of the credential lookup's
database interaction (its failure panics out of the handler, 500), `okInsert`
the success of the `insert_session_tokens` transaction (its failure makes
`UserLogin::login` return `None`, answered 409 like a credential mismatch),
`okUser` the success of the `get_user_by_id` interaction. The random refresh
and access token strings drawn by `Claims::new` are `rt` and `atok`. -/
def login_route_f (h : String → String) (okCheck okInsert okUser : Bool)
    (st : TokenStore) (user_login : UserLogin) (now : Int) (rt atok : String) :
    Except Nat LoginResponse × TokenStore :=
  if !okCheck then (.error 500, st)
  else
    match (user_login.hash_password h).check st with
    | none => (.error 409, st)
    | some user_id =>
      if !okInsert then (.error 409, st)
      else
        let token := Claims.new user_id now rt atok
        let st1 := (insert_session_tokens st user_id rt atok now).1
        if !okUser then (.error 500, st1)
        else
          match get_user_by_id st1 user_id with
          | none => (.error 500, st1)
          | some user =>
            (.ok { username := user.username, email := user.email,
                   bearer_token := token.encode }, st1)

/-- src/src/routes/mod.rs `login` route on the failure-free path. -/
def login_route (h : String → String) (st : TokenStore)
    (user_login : UserLogin) (now : Int) (rt atok : String) :
    Except Nat LoginResponse × TokenStore :=
  login_route_f h true true true st user_login now rt atok

/-- src/src/routes/mod.rs `refresh_token` lines 321-344: decode the posted
token; an `ExpiredSignature` failure falls back to
`decode_without_validation`, any other failure is fatal. -/
def refresh_decode_stage (enc : ClaimsEncoded) (now : Int) : Option Claims :=
  match enc.decode now with
  | .ok c => some c
  | .error .expiredSignature =>
    match enc.decode_without_validation with
    | .ok c => some c
    | .error _ => none
  | .error _ => none

/-- src/src/routes/mod.rs `refresh_token` route: decode (accepting an expired
signature), reject when the embedded refresh token is missing or expired,
mint `Claims::from_existing`, delete the obsolete access tokens under the
refresh-token id (result ignored), insert the new access-token row, and
answer with the re-encoded claims.

Fallible variant: `okExp` is the success of the
`select_refresh_token_expiration` interaction (failure panics, 500), `okSel`
of the `select_refresh_token_id` lookup, `okDel` of the obsolete-token delete
(its failure is ignored by the route), `okIns` of the access-token insert.
`newRt` and `newAt` are the random strings drawn by `Claims::new` inside
`Claims::from_existing` (the refresh token is then overwritten with the old
one). -/
def refresh_token_f (okExp okSel okDel okIns : Bool) (st : TokenStore)
    (enc : ClaimsEncoded) (now : Int) (newRt newAt : String) :
    Except Nat ClaimsEncoded × TokenStore :=
  match refresh_decode_stage enc now with
  | none => (.error 401, st)
  | some bearer =>
    if !okExp then (.error 500, st)
    else if bearer.is_refresh_token_expired st now then (.error 401, st)
    else
      let new_token := Claims.from_existing bearer now newRt newAt
      if !okSel then (.error 500, st)
      else
        match select_refresh_token_id st bearer.refresh_token with
        | none => (.error 500, st)
        | some refresh_token_id =>
          let st1 :=
            if okDel then delete_obsolete_access_tokens st refresh_token_id
            else st
          if !okIns then (.error 500, st1)
          else
            let st2 := (insert_access_token st1 refresh_token_id
              new_token.access_token now).1
            (.ok new_token.encode, st2)

/-- src/src/routes/mod.rs `refresh_token` route on the failure-free path. -/
def refresh_token_route (st : TokenStore) (enc : ClaimsEncoded) (now : Int)
    (newRt newAt : String) : Except Nat ClaimsEncoded × TokenStore :=
  refresh_token_f true true true true st enc now newRt newAt

/-- `album` table row (src/src/models.rs `Album`), restricted to the columns
the shared-album-link guard reads: the id and the Rocket-era share `link`
column it copies into the returned guard value. -/
structure AlbumRow where
  id : Int
  link : String
deriving Repr, DecidableEq

/-- `album_share_link` table row (src/src/models.rs `AlbumShareLink`). -/
structure AlbumShareLinkRow where
  id : Int
  uuid : String
  album_id : Int
  link : String
  password : Option String
  expiration : Option Int
deriving Repr, DecidableEq

/-- Share-link view of the relational store: the two tables the
shared-album-link guard touches. -/
structure ShareStore where
  albums : List AlbumRow
  albumShareLinks : List AlbumShareLinkRow
deriving Repr, DecidableEq

/-- src/src/db/albums.rs `select_album_share_link_by_uuid`. -/
def select_album_share_link_by_uuid (st : ShareStore) (uuid : String) :
    Option AlbumShareLinkRow :=
  st.albumShareLinks.find? (fun r => r.uuid == uuid)

/-- src/src/db/albums.rs `select_album`. -/
def select_album (st : ShareStore) (album_id : Int) : Option AlbumRow :=
  st.albums.find? (fun a => a.id == album_id)

/-- src/src/auth/shared_album_link.rs `SharedAlbumLinkSecurity`. -/
structure SharedAlbumLinkSecurity where
  album_share_link_uuid : String
  password : Option String
deriving Repr, DecidableEq

/-- src/src/auth/shared_album_link.rs `hash_password`: the same one-pass
SHA-512 hex digest `h`. -/
def hash_password (h : String → String) (password : String) : String :=
  h password

/-- src/src/auth/shared_album_link.rs `SharedAlbumLinkSecurity::from_request`
after Basic-Auth header decoding: the credential is the `uuid:password` pair
already split out of the base64 payload (an empty password segment means no
password was supplied). Succeeds when the share-link row exists, its album
exists, and the optional supplied-password digest equals the stored
`password` column. -/
def SharedAlbumLinkSecurity.from_request (h : String → String)
    (st : ShareStore) (album_share_link_uuid password_unfiltered : String) :
    Except Nat SharedAlbumLinkSecurity :=
  let hashed_password : Option String :=
    if password_unfiltered.length == 0 then none
    else some (hash_password h password_unfiltered)
  match select_album_share_link_by_uuid st album_share_link_uuid with
  | none => .error 401
  | some album_share_link =>
    match select_album st album_share_link.album_id with
    | none => .error 401
    | some album =>
      let sec : SharedAlbumLinkSecurity :=
        { album_share_link_uuid := album.link, password := hashed_password }
      if sec.password == album_share_link.password then .ok sec
      else .error 401

/-- `folder` table row (src/src/models.rs `Folder`); `uuid` column omitted. -/
structure FolderRow where
  id : Int
  owner_id : Int
  parent : Option Int
  name : String
deriving Repr, DecidableEq

/-- `media` table row (src/src/models.rs `Media`); `uuid` column omitted. -/
structure MediaRow where
  id : Int
  filename : String
  folder_id : Int
  owner_id : Int
  width : Int
  height : Int
  description : Option String
  date_taken : Int
  sha2_512 : String
deriving Repr, DecidableEq

/-- Scanner view of the relational store: the tables the media scanner
touches, with auto-increment counters. -/
structure ScanStore where
  users : List UserRow
  folders : List FolderRow
  media : List MediaRow
  folderNext : Int
  mediaNext : Int
deriving Repr, DecidableEq

/-- src/src/db/users.rs `get_user_username`, as used by the scanner. -/
def ScanStore.get_user_username (st : ScanStore) (user_id : Int) :
    Option String :=
  (st.users.find? (fun u => u.id == user_id)).map (fun u => u.username)

/-- A file on disk: its name, the MIME type the `infer` crate sniffs from its
content (`none` when `infer` recognizes nothing), and its SHA-512 content
hash as computed by the `checksums` crate. -/
structure FsFile where
  name : String
  mime : Option String
  sha2_512 : String
deriving Repr, DecidableEq

/-- A directory on disk: its name, subdirectories, and directly contained
files. -/
inductive FsDir where
  | mk (name : String) (subdirs : List FsDir) (files : List FsFile)

/-- Directory name. -/
def FsDir.name : FsDir → String
  | .mk n _ _ => n

/-- Direct subdirectories. -/
def FsDir.subdirs : FsDir → List FsDir
  | .mk _ ds _ => ds

/-- Directly contained files. -/
def FsDir.files : FsDir → List FsFile
  | .mk _ _ fl => fl

/-- src/src/scan/mod.rs `is_media_supported`: the fixed MIME allow-list. -/
def valid_mime_types : List String :=
  ["image/jpeg", "image/png", "image/gif", "image/webp", "image/x-canon-cr2",
   "image/tiff", "image/bmp", "image/heif", "image/avif", "video/mp4",
   "video/x-m4v", "video/x-matroska", "video/webm", "video/quicktime",
   "video/x-msvideo", "video/x-ms-wmv", "video/mpeg", "video/x-flv",
   "audio/midi", "audio/mpeg", "audio/m4a", "audio/ogg", "audio/x-flac",
   "audio/x-wav", "audio/amr", "audio/aac"]

/-- src/src/scan/mod.rs `is_media_supported`: content-sniffed MIME type in
the allow-list; an unrecognized file type is unsupported. -/
def is_media_supported (f : FsFile) : Bool :=
  match f.mime with
  | none => false
  | some kind => valid_mime_types.contains kind

/-- The segment list recorded for a pushed directory: stripping the user-root
prefix from the directory's absolute path and splitting on `/`
(src/src/scan/mod.rs:171-172) turns the root itself into the single empty
segment (Rust's `"".split('/')` yields one empty piece) and any other
directory into its relative path segments. -/
def rel_path_segs (segs : List String) : List String :=
  if segs.isEmpty then [String.mk []] else segs

mutual
/-- src/src/scan/mod.rs `scan_recursively`: depth-first walk pushing a
directory onto the array only when no subdirectory (recursively) reported
media — a directory whose descendants bear media returns early, before its
own files are examined. `segs` is the directory's path relative to the
scanned root; the returned flag is the source's `bool` result. -/
def scan_recursively : FsDir → List String → List (List String) →
    List (List String) × Bool
  | .mk _ subdirs files, segs, array =>
    if subdirs.isEmpty && files.isEmpty then (array, false)
    else
      let (array1, state) := scan_recursively_list subdirs segs array
      if state then (array1, true)
      else if (files.filter is_media_supported).length > 0 then
        (array1 ++ [rel_path_segs segs], true)
      else (array1, false)

/-- The `for folder in folders` loop of `scan_recursively`: scan every
subdirectory, or-ing the results. -/
def scan_recursively_list : List FsDir → List String → List (List String) →
    List (List String) × Bool
  | [], _, array => (array, false)
  | d :: ds, segs, array =>
    let (array1, found) := scan_recursively d (segs ++ [d.name]) array
    let (array2, rest) := scan_recursively_list ds segs array1
    (array2, found || rest)
end

/-- List-level lookup behind `select_child_folder_id`: first folder row
matching (parent, name, owner). The source's two diesel branches for a null
and a non-null parent are the two values of `parent` here. -/
def find_child_folder (folders : List FolderRow) (name : String)
    (parent : Option Int) (user_id : Int) : Option FolderRow :=
  folders.find? (fun f =>
    f.parent == parent && f.name == name && f.owner_id == user_id)

/-- src/src/scan/mod.rs `select_child_folder_id`. -/
def select_child_folder_id (st : ScanStore) (name : String)
    (parent : Option Int) (user_id : Int) : Option Int :=
  (find_child_folder st.folders name parent user_id).map (fun f => f.id)

/-- src/src/scan/mod.rs `insert_folder` (with src/src/models.rs
`NewFolder::new`) followed by `db::get_last_insert_id` on the same
connection: append the row, return the assigned id. -/
def insert_folder (st : ScanStore) (user_id : Int) (name : String)
    (parent : Option Int) : ScanStore × Int :=
  ({ st with
      folders := st.folders ++ [⟨st.folderNext, user_id, parent, name⟩],
      folderNext := st.folderNext + 1 },
    st.folderNext)

/-- The per-path segment loop of src/src/scan/mod.rs `add_folders_to_db`
(lines 174-202): walk the segments top-down, reusing the found folder id as
the next parent, inserting a row when the lookup misses. -/
def add_folder_segs (st : ScanStore) (user_id : Int) :
    List String → Option Int → ScanStore
  | [], _ => st
  | s :: rest, parent =>
    match select_child_folder_id st s parent user_id with
    | some folder_id => add_folder_segs st user_id rest (some folder_id)
    | none =>
      let (st1, newId) := insert_folder st user_id s parent
      add_folder_segs st1 user_id rest (some newId)

/-- src/src/scan/mod.rs `add_folders_to_db`: resolve the username, then
reconcile every discovered path (already stripped to relative segment
lists). -/
def add_folders_to_db (st : ScanStore) (paths : List (List String))
    (user_id : Int) : ScanStore :=
  match st.get_user_username user_id with
  | none => st
  | some _ => paths.foldl (fun acc p => add_folder_segs acc user_id p none) st

/-- The filesystem as the media phase sees it: the files directly inside a
directory path (`none` when the directory does not exist). -/
def DirListing : Type := String → Option (List FsFile)

/-- src/src/scan/mod.rs `folder_get_media`: list the files of a directory
and keep the supported media files. -/
def folder_get_media (fs : DirListing) (dir : String) :
    Option (List FsFile) :=
  match fs dir with
  | none => none
  | some files => some (files.filter is_media_supported)

/-- List-level lookup behind `check_if_media_present`: first media row
matching (filename, owner, folder). -/
def find_media (media : List MediaRow) (name : String)
    (parent_folder : FolderRow) (user_id : Int) : Option MediaRow :=
  media.find? (fun m =>
    m.filename == name && m.owner_id == user_id &&
      m.folder_id == parent_folder.id)

/-- src/src/scan/mod.rs `check_if_media_present`. -/
def check_if_media_present (st : ScanStore) (name : String)
    (parent_folder : FolderRow) (user_id : Int) : Option Int :=
  (find_media st.media name parent_folder user_id).map (fun m => m.id)

/-- src/src/scan/mod.rs `insert_media` (with src/src/models.rs
`NewMedia::new`): width/height 0, no description, the fixed
`from_timestamp(10, 10)` date, and the file's SHA-512 hash. -/
def insert_media (st : ScanStore) (name : String) (parent_folder : FolderRow)
    (media_scanned : FsFile) (user_id : Int) : ScanStore :=
  { st with
    media := st.media ++
      [⟨st.mediaNext, name, parent_folder.id, user_id, 0, 0, none, 10,
        media_scanned.sha2_512⟩],
    mediaNext := st.mediaNext + 1 }

/-- The `for media_scanned in media_scanned_vec` loop body of
src/src/scan/mod.rs `scan_folder_media`: insert the file unless a media row
for it is already present. -/
def scan_media_file (st : ScanStore) (parent_folder : FolderRow)
    (user_id : Int) (media_scanned : FsFile) : ScanStore :=
  match check_if_media_present st media_scanned.name parent_folder user_id with
  | some _ => st
  | none =>
    insert_media st media_scanned.name parent_folder media_scanned user_id

/-- src/src/scan/mod.rs `scan_folder_media`: list the directory's supported
media files and insert each one that is not yet present; the file's stored
name is its absolute path with the directory path stripped off, i.e. the
bare file name. -/
def scan_folder_media (fs : DirListing) (st : ScanStore)
    (parent_folder : FolderRow) (path : String) (user_id : Int) : ScanStore :=
  match folder_get_media fs path with
  | none => st
  | some media_scanned_vec =>
    if media_scanned_vec.isEmpty then st
    else
      media_scanned_vec.foldl
        (fun acc media_scanned =>
          scan_media_file acc parent_folder user_id media_scanned) st

/-- List-level query behind `select_root_folders`: folders with a null
parent owned by the user. -/
def root_folders_of (folders : List FolderRow) (user_id : Int) :
    List FolderRow :=
  folders.filter (fun f => f.parent == none && f.owner_id == user_id)

/-- src/src/scan/mod.rs `select_root_folders`. -/
def select_root_folders (st : ScanStore) (user_id : Int) : List FolderRow :=
  root_folders_of st.folders user_id

/-- List-level query behind `select_subfolders`: folders whose parent is the
given folder, owned by the user. -/
def subfolders_of (folders : List FolderRow) (parent_folder : FolderRow)
    (user_id : Int) : List FolderRow :=
  folders.filter (fun f =>
    f.parent == some parent_folder.id && f.owner_id == user_id)

/-- src/src/scan/mod.rs `select_subfolders`. -/
def select_subfolders (st : ScanStore) (parent_folder : FolderRow)
    (user_id : Int) : List FolderRow :=
  subfolders_of st.folders parent_folder user_id

mutual
/-- src/src/scan/mod.rs `scan_select`: compute this folder's on-disk path
(the source's `format!` calls, slashes included), scan its media, then
recurse into its subfolders as read from the folder table. The source
recursion has no bound; `fuel` is the recursion budget of the embedding
(both runs of an idempotence pair receive the same budget). -/
def scan_select (fs : DirListing) (xdg username : String) (user_id : Int) :
    Nat → ScanStore → FolderRow → String → ScanStore
  | 0, st, _, _ => st
  | fuel + 1, st, parent_folder, path0 =>
    let path :=
      if path0 == String.mk [] then
        xdg ++ ("/") ++ username ++ ("/") ++ parent_folder.name ++ ("/")
      else path0
    let folders := select_subfolders st parent_folder user_id
    let st1 := scan_folder_media fs st parent_folder path user_id
    scan_select_list fs xdg username user_id fuel st1 folders path

/-- The `for folder in folders` loop of `scan_select`. -/
def scan_select_list (fs : DirListing) (xdg username : String)
    (user_id : Int) :
    Nat → ScanStore → List FolderRow → String → ScanStore
  | _, st, [], _ => st
  | fuel, st, folder :: rest, path =>
    scan_select_list fs xdg username user_id fuel
      (scan_select fs xdg username user_id fuel st folder
        (path ++ ("/") ++ folder.name ++ ("/")))
      rest path
end

/-- src/src/scan/mod.rs `scan_folders_for_media`: resolve the username and
run `scan_select` from every root folder of the user with an empty starting
path. -/
def scan_folders_for_media (fs : DirListing) (st : ScanStore) (xdg : String)
    (user_id : Int) (fuel : Nat) : ScanStore :=
  match st.get_user_username user_id with
  | none => st
  | some username =>
    (select_root_folders st user_id).foldl
      (fun acc root_folder =>
        scan_select fs xdg username user_id fuel acc root_folder
          (String.mk []))
      st

/-- src/src/scan/mod.rs `scan_root`: resolve the username, discover the
media-bearing directories of the user's on-disk subtree `tree` (the
`read_dir`-nonempty guard of lines 137-145 included), reconcile the folder
table, then reconcile media. Creating a missing user directory only touches
the disk, never the store, and is not modelled. -/
def scan_root (fs : DirListing) (tree : FsDir) (st : ScanStore)
    (xdg : String) (user_id : Int) (fuel : Nat) : ScanStore :=
  match st.get_user_username user_id with
  | none => st
  | some _ =>
    let found_folders :=
      if tree.subdirs.isEmpty && tree.files.isEmpty then []
      else (scan_recursively tree [] []).1
    let st1 := add_folders_to_db st found_folders user_id
    scan_folders_for_media fs st1 xdg user_id fuel

/-- src/src/db/folders.rs `select_parent_folder` (same query as the
src/src/scan/mod.rs copy): the parent row by id and owner, `none` at a
root. -/
def select_parent_folder (st : ScanStore) (current_folder : FolderRow)
    (user_id : Int) : Option FolderRow :=
  match current_folder.parent with
  | none => none
  | some pid => st.folders.find? (fun f => f.id == pid && f.owner_id == user_id)

/-- src/src/scan/mod.rs `select_parent_folder_recursive`: push each parent
and recurse on it; the source recursion carries no depth bound, so the
embedding spends one unit of `fuel` per step and answers `none` when the
budget is exhausted while the walk is still running — the source would still
be recursing at that point. -/
def select_parent_folder_recursive (st : ScanStore) (user_id : Int) :
    Nat → FolderRow → List FolderRow → Option (List FolderRow × Bool)
  | 0, _, _ => none
  | fuel + 1, current_folder, vec =>
    match select_parent_folder st current_folder user_id with
    | none => some (vec, false)
    | some parent =>
      select_parent_folder_recursive st user_id fuel parent (vec ++ [parent])

/-! ### Proof-device predicates

These do not embed source code; they name the intermediate invariants of the
reconciliation proofs: a path whose folder chain fully resolves, and a
folder subtree whose on-disk media are all present in the media table. -/

/-- The folder chain of a segment list fully resolves by lookups: at every
segment the (owner, parent, name) lookup finds a row, whose id is the next
parent. -/
def chain_resolves (folders : List FolderRow) (user_id : Int) :
    List String → Option Int → Bool
  | [], _ => true
  | s :: rest, parent =>
    match find_child_folder folders s parent user_id with
    | some f => chain_resolves folders user_id rest (some f.id)
    | none => false

/-- Every supported media file directly inside `path` already has a media
row under `parent_folder`. -/
def folder_media_complete (fs : DirListing) (media : List MediaRow)
    (parent_folder : FolderRow) (path : String) (user_id : Int) : Bool :=
  match folder_get_media fs path with
  | none => true
  | some files =>
    files.all (fun f => (find_media media f.name parent_folder user_id).isSome)

mutual
/-- `folder_media_complete` along the whole traversal `scan_select` would
perform over the fixed folder table `folders` with the given budget. -/
def scan_select_complete (fs : DirListing) (xdg username : String)
    (user_id : Int) (folders : List FolderRow) :
    Nat → FolderRow → String → List MediaRow → Bool
  | 0, _, _, _ => true
  | fuel + 1, parent_folder, path0, media =>
    let path :=
      if path0 == String.mk [] then
        xdg ++ ("/") ++ username ++ ("/") ++ parent_folder.name ++ ("/")
      else path0
    folder_media_complete fs media parent_folder path user_id
      && scan_select_complete_list fs xdg username user_id folders fuel
          (subfolders_of folders parent_folder user_id) path media

/-- `scan_select_complete` over a list of sibling folders. -/
def scan_select_complete_list (fs : DirListing) (xdg username : String)
    (user_id : Int) (folders : List FolderRow) :
    Nat → List FolderRow → String → List MediaRow → Bool
  | _, [], _, _ => true
  | fuel, folder :: rest, path, media =>
    scan_select_complete fs xdg username user_id folders fuel folder
        (path ++ ("/") ++ folder.name ++ ("/")) media
      && scan_select_complete_list fs xdg username user_id folders fuel rest
          path media
end

/-! ### Concrete fixtures for counterexamples and witnesses -/

/-- A JPEG file as the `infer` crate sniffs it. -/
def jpgFile (n : String) : FsFile :=
  { name := n, mime := some ("image/jpeg"), sha2_512 := ("deadbeef") }

/-- Directory `a/b` holding `y.jpg`. -/
def c6DirB : FsDir := .mk ("b") [] [jpgFile ("y.jpg")]

/-- Directory `a`, directly holding `x.jpg` and the media-bearing
subdirectory `b`. -/
def c6DirA : FsDir := .mk ("a") [c6DirB] [jpgFile ("x.jpg")]

/-- A user root whose subdirectory `a` bears media both directly and in its
subdirectory `a/b`. -/
def c6Tree : FsDir := .mk ("alice") [c6DirA] []

/-- Folder row number 1 of a corrupted store: its parent is folder 2. -/
def c7FolderA : FolderRow :=
  { id := 1, owner_id := 7, parent := some 2, name := ("a") }

/-- Folder row number 2 of a corrupted store: its parent is folder 1,
closing the cycle. -/
def c7FolderB : FolderRow :=
  { id := 2, owner_id := 7, parent := some 1, name := ("b") }

/-- A store whose folder table carries a two-cycle in the parent chain. -/
def c7Store : ScanStore :=
  { users := [], folders := [c7FolderA, c7FolderB], media := [],
    folderNext := 3, mediaNext := 1 }

/-- A signature-valid, far-from-expired payload referencing user 1. -/
def c3Claims : Claims :=
  { exp := 2000, iat := 0, user_id := 1, refresh_token := ("r"),
    access_token := ("a") }

/-- The encoded form of `c3Claims`, signature verifying. -/
def c3Token : ClaimsEncoded := { claims := c3Claims, sigValid := true }

/-- A store with no users at all: user 1 does not exist. -/
def c3Store : TokenStore :=
  { users := [], refreshTokens := [], accessTokens := [], rtNext := 1,
    atNext := 1 }

/-- A share link with no password whose expiration lies in the past of every
non-negative clock. -/
def c8Link : AlbumShareLinkRow :=
  { id := 1, uuid := ("u1"), album_id := 5, link := ("lnk"), password := none,
    expiration := some (-5) }

/-- The album behind `c8Link`. -/
def c8Album : AlbumRow := { id := 5, link := ("share123") }

/-- Share store holding only the expired link and its album. -/
def c8Store : ShareStore :=
  { albums := [c8Album], albumShareLinks := [c8Link] }

/-- A live, password-protected share link (stored digest of `good` under the
identity stand-in digest). -/
def c8LinkPw : AlbumShareLinkRow :=
  { id := 2, uuid := ("u2"), album_id := 5, link := ("lnk2"),
    password := some ("good"), expiration := none }

/-- Share store holding the password-protected link and its album. -/
def c8StorePw : ShareStore :=
  { albums := [c8Album], albumShareLinks := [c8LinkPw] }

/-- Witness user alice; her stored hash is the digest of `pw` under the
identity stand-in digest used by the witnesses. -/
def wUser : UserRow :=
  { id := 1, username := ("alice"), email := ("alice@example.com"),
    password := ("pw") }

/-- Witness refresh-token row owned by alice, expiring at 5000. -/
def wRt : AuthRefreshTokenRow :=
  { id := 10, user_id := 1, refresh_token := ("rtok"),
    expiration_time := 5000 }

/-- Witness access-token row previously issued under `wRt`. -/
def wAt : AuthAccessTokenRow :=
  { id := 20, refresh_token_id := 10, access_token := ("atok0"),
    expiration_time := 940 }

/-- Witness token store: alice, her session, one live access token. -/
def wTokenStore : TokenStore :=
  { users := [wUser], refreshTokens := [wRt], accessTokens := [wAt],
    rtNext := 11, atNext := 21 }

/-- Witness payload of the access token previously issued to alice. -/
def wClaims : Claims :=
  { exp := 900, iat := 0, user_id := 1, refresh_token := ("rtok"),
    access_token := ("atok0") }

/-- Encoded form of `wClaims`, signature verifying. -/
def wEnc : ClaimsEncoded := { claims := wClaims, sigValid := true }

/-! ## General helper lemmas -/

/-- A filter selecting a predicate finds nothing among the survivors of the
complementary filter. -/
theorem filter_pos_of_filter_neg (l : List AuthAccessTokenRow) (rid : Int) :
    (l.filter (fun a => !(a.refresh_token_id == rid))).filter
      (fun a => a.refresh_token_id == rid) = [] := by
  rw [List.filter_filter]
  refine List.filter_eq_nil_iff.mpr ?_
  intro a _
  simp

/-- When a filter returns exactly one row, `find?` returns that row. -/
theorem find?_eq_of_filter_eq_singleton {α : Type} (p : α → Bool) (l : List α)
    (r : α) (h : l.filter p = [r]) : l.find? p = some r := by
  induction l with
  | nil => simp at h
  | cons a t ih =>
    rw [List.filter_cons] at h
    by_cases hp : p a
    · simp only [hp, if_true] at h
      rcases List.cons_eq_cons.mp h with ⟨h1, _⟩
      rw [List.find?_cons_of_pos _ hp, h1]
    · simp only [hp, if_false, Bool.false_eq_true] at h
      rw [List.find?_cons_of_neg _ (by simp [hp])]
      exact ih h

/-- When a filter returns exactly one row, every member satisfying the
predicate is that row. -/
theorem eq_of_filter_eq_singleton {α : Type} (p : α → Bool) (l : List α)
    (r : α) (h : l.filter p = [r]) : ∀ x ∈ l, p x → x = r := by
  intro x hx hpx
  have hm : x ∈ l.filter p := List.mem_filter.mpr ⟨hx, hpx⟩
  rw [h] at hm
  simpa using hm

/-- A signature-valid token always survives the refresh route's decode stage
with its own payload, whether or not `exp` has passed. -/
theorem refresh_decode_stage_of_sigValid (enc : ClaimsEncoded) (now : Int)
    (h : enc.sigValid = true) : refresh_decode_stage enc now = some enc.claims := by
  by_cases hx : enc.claims.exp < now - jwtLeeway
  · simp [refresh_decode_stage, ClaimsEncoded.decode,
      ClaimsEncoded.decode_without_validation, h, hx]
  · simp [refresh_decode_stage, ClaimsEncoded.decode, h, hx]

/-- The refresh route's decode stage either fails or yields the posted
payload. -/
theorem refresh_decode_stage_cases (enc : ClaimsEncoded) (now : Int) :
    refresh_decode_stage enc now = none
    ∨ refresh_decode_stage enc now = some enc.claims := by
  cases hsv : enc.sigValid with
  | false =>
    left
    simp [refresh_decode_stage, ClaimsEncoded.decode,
      ClaimsEncoded.decode_without_validation, hsv]
  | true => right; exact refresh_decode_stage_of_sigValid enc now hsv

/-- The three outcomes of the `auth` middleware: 422 on a bad signature, 401
when the signature verifies but the token is expired or its user is gone,
success otherwise. -/
theorem auth_cases (st : TokenStore) (enc : ClaimsEncoded) (now : Int) :
    (enc.sigValid = false ∧ auth st enc now = .error 422)
    ∨ (enc.sigValid = true
        ∧ (enc.claims.exp < now
            ∨ (get_user_username st enc.claims.user_id).isSome = false)
        ∧ auth st enc now = .error 401)
    ∨ (enc.sigValid = true ∧ ¬ enc.claims.exp < now
        ∧ (get_user_username st enc.claims.user_id).isSome = true
        ∧ auth st enc now = .ok enc.claims) := by
  cases hsv : enc.sigValid with
  | false =>
    left
    exact ⟨rfl, by simp [auth, ClaimsEncoded.decode, hsv]⟩
  | true =>
    by_cases hexp60 : enc.claims.exp < now - jwtLeeway
    · right; left
      refine ⟨rfl, Or.inl ?_, ?_⟩
      · have hl : jwtLeeway = 60 := rfl
        omega
      · simp [auth, ClaimsEncoded.decode, hsv, hexp60]
    · by_cases hexp : enc.claims.exp < now
      · right; left
        refine ⟨rfl, Or.inl hexp, ?_⟩
        simp [auth, ClaimsEncoded.decode, Claims.is_valid, Claims.is_expired,
          hsv, hexp60, hexp]
      · cases hu : (get_user_username st enc.claims.user_id).isSome with
        | false =>
          right; left
          refine ⟨rfl, Or.inr rfl, ?_⟩
          simp [auth, ClaimsEncoded.decode, Claims.is_valid, Claims.is_expired,
            hsv, hexp60, hexp, hu]
        | true =>
          right; right
          refine ⟨rfl, hexp, rfl, ?_⟩
          simp [auth, ClaimsEncoded.decode, Claims.is_valid, Claims.is_expired,
            hsv, hexp60, hexp, hu]

/-! ## Claim theorems: session/token manager -/

/-- C3 counterexample: a signature-valid, far-from-expired token referencing
a deleted user fails `auth` with the 401 "expired" classification even
though its decode succeeds — no expired-signature error occurred, refuting
"classified as expired exactly when the signature check fails with an
expired-signature error". -/
theorem c3_counterexample :
    auth c3Store c3Token 1000 = .error 401
    ∧ c3Token.decode 1000 = .ok c3Claims := by
  exact ⟨rfl, rfl⟩

/-- C3 (amended): `auth` succeeds iff the signature verifies, `exp` is not in
the past, and the referenced user still exists; no access-token row is
consulted; a failure is 401 exactly when the signature verifies and the
token is expired or its user is missing (so also for a missing user, not
only for an expired-signature error), and 422 exactly when the signature
does not verify; a signature-valid payload with `exp` in the past always
fails with 401, never 422. -/
theorem c3_amended (st : TokenStore) (enc : ClaimsEncoded) (now : Int) :
    (∀ c, auth st enc now = .ok c ↔
      (enc.sigValid = true ∧ ¬ enc.claims.exp < now
        ∧ (get_user_username st enc.claims.user_id).isSome = true
        ∧ c = enc.claims))
    ∧ (∀ ats, auth { st with accessTokens := ats } enc now = auth st enc now)
    ∧ (enc.sigValid = true → enc.claims.exp < now →
        auth st enc now = .error 401)
    ∧ (auth st enc now = .error 422 ↔ enc.sigValid = false)
    ∧ (auth st enc now = .error 401 ↔
        (enc.sigValid = true
          ∧ (enc.claims.exp < now
              ∨ (get_user_username st enc.claims.user_id).isSome = false))) := by
  refine ⟨?_, ?_, ?_, ?_, ?_⟩
  · intro c
    rcases auth_cases st enc now with ⟨h1, h2⟩ | ⟨h1, h2, h3⟩ | ⟨h1, h2, h3, h4⟩
    · simp [h1, h2]
    · simp only [h3]
      constructor
      · intro h; exact absurd h (by simp)
      · rintro ⟨_, hx, hy, _⟩
        rcases h2 with h2 | h2
        · exact absurd h2 hx
        · rw [hy] at h2; exact absurd h2 (by simp)
    · simp only [h4]
      constructor
      · intro h
        exact ⟨h1, h2, h3, (Except.ok.injEq _ _ ▸ h.symm : _)⟩
      · rintro ⟨_, _, _, hc⟩
        rw [hc]
  · intro ats; rfl
  · intro hsv hexp
    rcases auth_cases st enc now with ⟨h1, _⟩ | ⟨_, _, h3⟩ | ⟨_, h2, _, _⟩
    · rw [hsv] at h1; exact absurd h1 (by simp)
    · exact h3
    · exact absurd hexp h2
  · rcases auth_cases st enc now with ⟨h1, h2⟩ | ⟨h1, h2, h3⟩ | ⟨h1, h2, h3, h4⟩
    · simp [h1, h2]
    · simp [h1, h3]
    · simp [h1, h4]
  · rcases auth_cases st enc now with ⟨h1, h2⟩ | ⟨h1, h2, h3⟩ | ⟨h1, h2, h3, h4⟩
    · simp [h1, h2]
    · simp [h1, h3]
      simpa using h2
    · simp only [h4]
      constructor
      · intro h; exact absurd h (by simp)
      · rintro ⟨_, hx | hx⟩
        · exact absurd hx h2
        · rw [h3] at hx; exact absurd hx (by simp)

/-- C3 witness: before expiry and with alice still present, `auth` accepts
her token. -/
theorem c3_witness : auth wTokenStore wEnc 100 = .ok wClaims :=
  ((c3_amended wTokenStore wEnc 100).1 wClaims).mpr
    ⟨rfl, by decide, by decide, rfl⟩

/-- C1: for a stored, unexpired refresh token presented inside a
signature-valid bearer token minted for its owner, the refresh route
succeeds, the returned claims carry the owner's `user_id`, and afterwards
the access-token rows under that refresh-token id are exactly the one
freshly inserted row — every previously issued access token under it is
gone. -/
theorem c1_refresh_rotates (st : TokenStore) (enc : ClaimsEncoded) (now : Int)
    (newRt newAt : String) (r : AuthRefreshTokenRow)
    (hsig : enc.sigValid = true)
    (hfind : st.refreshTokens.find?
      (fun row => row.refresh_token == enc.claims.refresh_token) = some r)
    (hunexp : ¬ r.expiration_time < now)
    (howner : r.user_id = enc.claims.user_id) :
    (refresh_token_route st enc now newRt newAt).1 =
        .ok (Claims.from_existing enc.claims now newRt newAt).encode
      ∧ (Claims.from_existing enc.claims now newRt newAt).user_id = r.user_id
      ∧ (refresh_token_route st enc now newRt newAt).2.accessTokens.filter
          (fun a => a.refresh_token_id == r.id)
        = [⟨st.atNext, r.id, newAt, now + 900⟩] := by
  have hd := refresh_decode_stage_of_sigValid enc now hsig
  have hexp : select_refresh_token_expiration st enc.claims.refresh_token
      = some r.expiration_time := by
    simp [select_refresh_token_expiration, hfind]
  have hid : select_refresh_token_id st enc.claims.refresh_token
      = some r.id := by
    simp [select_refresh_token_id, hfind]
  refine ⟨?_, ?_, ?_⟩
  · simp [refresh_token_route, refresh_token_f, hd,
      Claims.is_refresh_token_expired, hexp, hunexp, hid]
  · rw [howner]
    simp [Claims.from_existing, Claims.new]
  · have hroute2 : (refresh_token_route st enc now newRt newAt).2.accessTokens
        = st.accessTokens.filter (fun a => !(a.refresh_token_id == r.id))
          ++ [⟨st.atNext, r.id, newAt, now + 900⟩] := by
      simp [refresh_token_route, refresh_token_f, hd,
        Claims.is_refresh_token_expired, hexp, hunexp, hid,
        delete_obsolete_access_tokens, insert_access_token,
        Claims.from_existing, Claims.new]
    rw [hroute2, List.filter_append, filter_pos_of_filter_neg]
    simp

/-- C1 witness: refreshing alice's (expired) bearer token against her live
session rotates her access token. -/
theorem c1_witness :
    (refresh_token_route wTokenStore wEnc 1000 ("nrt") ("nat")).1 =
        .ok (Claims.from_existing wClaims 1000 ("nrt") ("nat")).encode
      ∧ (Claims.from_existing wClaims 1000 ("nrt") ("nat")).user_id = wRt.user_id
      ∧ (refresh_token_route wTokenStore wEnc 1000 ("nrt") ("nat")).2.accessTokens.filter
          (fun a => a.refresh_token_id == wRt.id)
        = [⟨wTokenStore.atNext, wRt.id, ("nat"), 1900⟩] :=
  c1_refresh_rotates wTokenStore wEnc 1000 ("nrt") ("nat") wRt rfl (by decide)
    (by decide) rfl

/-- C10: every minted JWT embeds the session's refresh-token string in its
signed payload, and the refresh route — whose input is the encoded JWT
itself, not a bare refresh-token value — accepts a signature-valid token
whose `exp` is already past, re-extracts the embedded refresh token, and
succeeds as long as the embedded refresh-token row is unexpired, returning a
new token for the same refresh-token identity. -/
theorem c10_jwt_carries_refresh_token (st : TokenStore) (enc : ClaimsEncoded)
    (now : Int) (newRt newAt : String) (r : AuthRefreshTokenRow)
    (hsig : enc.sigValid = true)
    (_hexpired : enc.claims.exp < now)
    (hfind : st.refreshTokens.find?
      (fun row => row.refresh_token == enc.claims.refresh_token) = some r)
    (hunexp : ¬ r.expiration_time < now) :
    (∀ c : Claims, (c.encode).claims.refresh_token = c.refresh_token
      ∧ (c.encode).sigValid = true)
    ∧ (Claims.from_existing enc.claims now newRt newAt).refresh_token
        = enc.claims.refresh_token
    ∧ (refresh_token_route st enc now newRt newAt).1 =
        .ok (Claims.from_existing enc.claims now newRt newAt).encode := by
  have hd := refresh_decode_stage_of_sigValid enc now hsig
  have hexp : select_refresh_token_expiration st enc.claims.refresh_token
      = some r.expiration_time := by
    simp [select_refresh_token_expiration, hfind]
  have hid : select_refresh_token_id st enc.claims.refresh_token
      = some r.id := by
    simp [select_refresh_token_id, hfind]
  refine ⟨fun c => ⟨rfl, rfl⟩, rfl, ?_⟩
  simp [refresh_token_route, refresh_token_f, hd,
    Claims.is_refresh_token_expired, hexp, hunexp, hid]

/-- C10 witness: alice's expired token alone, being signature-valid, obtains
a fresh access token. -/
theorem c10_witness :
    (refresh_token_route wTokenStore wEnc 1000 ("nr2") ("na2")).1 =
      .ok (Claims.from_existing wClaims 1000 ("nr2") ("na2")).encode :=
  (c10_jwt_carries_refresh_token wTokenStore wEnc 1000 ("nr2") ("na2") wRt rfl
    (by decide) (by decide) (by decide)).2.2

/-- C5: when exactly one refresh-token row carries the presented value,
`Logout` deletes it together with every access-token row under it and
returns `true`; a second `Logout` is a no-op returning `false`; and any
subsequent `Refresh` of a token embedding that refresh-token value fails. -/
theorem c5_logout_revokes (st : TokenStore) (v : String)
    (r : AuthRefreshTokenRow)
    (huniq : st.refreshTokens.filter (fun q => q.refresh_token == v) = [r]) :
    (delete_session_by_refresh_token st v).2 = true
    ∧ (delete_session_by_refresh_token st v).1.refreshTokens.filter
        (fun q => q.refresh_token == v) = []
    ∧ (delete_session_by_refresh_token st v).1.accessTokens.filter
        (fun a => a.refresh_token_id == r.id) = []
    ∧ delete_session_by_refresh_token
        (delete_session_by_refresh_token st v).1 v
        = ((delete_session_by_refresh_token st v).1, false)
    ∧ ∀ (enc : ClaimsEncoded) (now : Int) (newRt newAt : String),
        enc.claims.refresh_token = v →
        ∃ e, (refresh_token_route (delete_session_by_refresh_token st v).1
          enc now newRt newAt).1 = .error e := by
  have hfind : st.refreshTokens.find? (fun q => q.refresh_token == v)
      = some r :=
    find?_eq_of_filter_eq_singleton _ _ _ huniq
  have honly := eq_of_filter_eq_singleton _ _ _ huniq
  have hres : delete_session_by_refresh_token st v =
      ({ st with
          accessTokens :=
            st.accessTokens.filter (fun a => !(a.refresh_token_id == r.id)),
          refreshTokens :=
            st.refreshTokens.filter (fun q => !(q.id == r.id)) },
        true) := by
    simp [delete_session_by_refresh_token, hfind]
  have hrtgone : (st.refreshTokens.filter (fun q => !(q.id == r.id))).filter
      (fun q => q.refresh_token == v) = [] := by
    rw [List.filter_filter]
    refine List.filter_eq_nil_iff.mpr ?_
    intro q hq
    by_cases hqv : q.refresh_token == v
    · have : q = r := honly q hq hqv
      simp [this]
    · simp [hqv]
  have hnone : (st.refreshTokens.filter (fun q => !(q.id == r.id))).find?
      (fun q => q.refresh_token == v) = none := by
    rw [List.find?_eq_none]
    intro q hq hqv
    have hq1 := List.mem_filter.mp hq
    have : q = r := honly q hq1.1 hqv
    rw [this] at hq1
    simp at hq1
  refine ⟨by rw [hres], ?_, ?_, ?_, ?_⟩
  · rw [hres]
    exact hrtgone
  · rw [hres]
    exact filter_pos_of_filter_neg _ _
  · rw [hres]
    simp [delete_session_by_refresh_token, hnone]
  · intro enc now newRt newAt hv
    rcases refresh_decode_stage_cases enc now with hd | hd
    · exact ⟨401, by simp [refresh_token_route, refresh_token_f, hd]⟩
    · refine ⟨401, ?_⟩
      have hnone2 : select_refresh_token_expiration
          (delete_session_by_refresh_token st v).1 enc.claims.refresh_token
          = none := by
        rw [hres, hv]
        simp only [select_refresh_token_expiration]
        rw [hnone]
        rfl
      simp [refresh_token_route, refresh_token_f, hd,
        Claims.is_refresh_token_expired, hnone2]

/-- C5 witness: logging alice out deletes her session and a refresh of her
token afterwards fails. -/
theorem c5_witness :
    (delete_session_by_refresh_token wTokenStore ("rtok")).2 = true
    ∧ ∃ e, (refresh_token_route
        (delete_session_by_refresh_token wTokenStore ("rtok")).1 wEnc 1000
        ("x1") ("y1")).1 = .error e := by
  have h := c5_logout_revokes wTokenStore ("rtok") wRt (by decide)
  exact ⟨h.1, h.2.2.2.2 wEnc 1000 ("x1") ("y1") rfl⟩

/-- C4: whatever succeeds or fails among the store interactions, login
either leaves the token tables untouched and reports an error, or commits
the refresh-token row and the access-token row together (the
`insert_session_tokens` transaction); and refresh never writes a
refresh-token row at all and, whenever it reports failure, has written no
new access-token row — there is no outcome in which exactly one of the
paired writes persists. -/
theorem c4_no_partial_session_writes (h : String → String)
    (okCheck okInsert okUser : Bool) (st : TokenStore)
    (user_login : UserLogin) (now : Int) (rt atok : String)
    (okExp okSel okDel okIns : Bool) (enc : ClaimsEncoded) (now2 : Int)
    (newRt newAt : String) :
    (((login_route_f h okCheck okInsert okUser st user_login now rt atok).2 = st
        ∧ ∃ e, (login_route_f h okCheck okInsert okUser st user_login now rt
            atok).1 = .error e)
      ∨ (∃ uid, (user_login.hash_password h).check st = some uid
          ∧ (login_route_f h okCheck okInsert okUser st user_login now rt
              atok).2 = (insert_session_tokens st uid rt atok now).1))
    ∧ (refresh_token_f okExp okSel okDel okIns st enc now2 newRt
        newAt).2.refreshTokens = st.refreshTokens
    ∧ (∀ e, (refresh_token_f okExp okSel okDel okIns st enc now2 newRt
          newAt).1 = .error e →
        ∀ a ∈ (refresh_token_f okExp okSel okDel okIns st enc now2 newRt
          newAt).2.accessTokens, a ∈ st.accessTokens) := by
  refine ⟨?_, ?_, ?_⟩
  · cases hc : okCheck with
    | false => exact Or.inl ⟨by simp [login_route_f, hc], 500,
        by simp [login_route_f, hc]⟩
    | true =>
      cases hk : (user_login.hash_password h).check st with
      | none => exact Or.inl ⟨by simp [login_route_f, hc, hk], 409,
          by simp [login_route_f, hc, hk]⟩
      | some uid =>
        cases hi : okInsert with
        | false => exact Or.inl ⟨by simp [login_route_f, hc, hk, hi], 409,
            by simp [login_route_f, hc, hk, hi]⟩
        | true =>
          refine Or.inr ⟨uid, rfl, ?_⟩
          cases hu : okUser with
          | false => simp [login_route_f, hc, hk, hi, hu]
          | true =>
            cases hg : get_user_by_id (insert_session_tokens st uid rt atok
                now).1 uid with
            | none => simp [login_route_f, hc, hk, hi, hu, hg]
            | some u => simp [login_route_f, hc, hk, hi, hu, hg]
  · cases hd : refresh_decode_stage enc now2 with
    | none => simp [refresh_token_f, hd]
    | some bearer =>
      cases he : okExp with
      | false => simp [refresh_token_f, hd, he]
      | true =>
        cases hre : bearer.is_refresh_token_expired st now2 with
        | false =>
          cases hs : okSel with
          | false => simp [refresh_token_f, hd, he, hre, hs]
          | true =>
            cases hsel : select_refresh_token_id st bearer.refresh_token with
            | none => simp [refresh_token_f, hd, he, hre, hs, hsel]
            | some rid =>
              cases hdel : okDel with
              | false =>
                cases hins : okIns with
                | false => simp [refresh_token_f, hd, he, hre, hs, hsel, hdel,
                    hins]
                | true => simp [refresh_token_f, hd, he, hre, hs, hsel, hdel,
                    hins, insert_access_token]
              | true =>
                cases hins : okIns with
                | false => simp [refresh_token_f, hd, he, hre, hs, hsel, hdel,
                    hins, delete_obsolete_access_tokens]
                | true => simp [refresh_token_f, hd, he, hre, hs, hsel, hdel,
                    hins, delete_obsolete_access_tokens, insert_access_token]
        | true => simp [refresh_token_f, hd, he, hre]
  · intro e herr a hmem
    revert herr hmem
    cases hd : refresh_decode_stage enc now2 with
    | none =>
      intro herr hmem; simpa [refresh_token_f, hd] using hmem
    | some bearer =>
      cases he : okExp with
      | false => intro herr hmem; simpa [refresh_token_f, hd, he] using hmem
      | true =>
        cases hre : bearer.is_refresh_token_expired st now2 with
        | false =>
          cases hs : okSel with
          | false =>
            intro herr hmem
            simpa [refresh_token_f, hd, he, hre, hs] using hmem
          | true =>
            cases hsel : select_refresh_token_id st bearer.refresh_token with
            | none =>
              intro herr hmem
              simpa [refresh_token_f, hd, he, hre, hs, hsel] using hmem
            | some rid =>
              cases hdel : okDel with
              | false =>
                cases hins : okIns with
                | false =>
                  intro herr hmem
                  simpa [refresh_token_f, hd, he, hre, hs, hsel, hdel, hins]
                    using hmem
                | true =>
                  intro herr
                  simp [refresh_token_f, hd, he, hre, hs, hsel, hdel, hins]
                    at herr
              | true =>
                cases hins : okIns with
                | false =>
                  intro herr hmem
                  simp [refresh_token_f, hd, he, hre, hs, hsel, hdel, hins,
                    delete_obsolete_access_tokens] at hmem
                  exact hmem.1
                | true =>
                  intro herr
                  simp [refresh_token_f, hd, he, hre, hs, hsel, hdel, hins]
                    at herr
        | true =>
          intro herr hmem
          simpa [refresh_token_f, hd, he, hre] using hmem

/-- C4 witness: a refresh whose access-token insert fails reports an error
having inserted nothing new. -/
theorem c4_witness :
    ∀ a ∈ (refresh_token_f true true true false wTokenStore wEnc 1000
      ("w1") ("w2")).2.accessTokens, a ∈ wTokenStore.accessTokens := by
  have h := (c4_no_partial_session_writes (fun s => s) true true true
    wTokenStore { username_or_email := ("alice"), password := ("pw") } 0
    ("r0") ("a0") true true true false wEnc 1000 ("w1") ("w2")).2.2
  exact h 500 rfl

/-- The hashed login's credential check succeeds exactly when a user row
matches the identifier (email when it contains `@`, username otherwise) and
the digest of the supplied password. -/
theorem check_isSome_iff (hf : String → String) (st : TokenStore)
    (ul : UserLogin) :
    ((ul.hash_password hf).check st).isSome = true ↔
    ∃ u, u ∈ st.users
      ∧ (if ul.is_email then u.email = ul.username_or_email
          else u.username = ul.username_or_email)
      ∧ u.password = hf ul.password := by
  have ha : (ul.hash_password hf).is_email = ul.is_email := rfl
  by_cases he : ul.is_email
  · simp only [UserLogin.check, ha, he, if_true]
    simp [check_user_login_email, List.find?_isSome, UserLogin.hash_password,
      and_assoc]
  · simp only [UserLogin.check, ha, he, if_false]
    simp [check_user_login_username, List.find?_isSome, UserLogin.hash_password,
      and_assoc]

/-- When the hashed login's credential check answers an id, a matching user
row with that id exists. -/
theorem check_some_elim (hf : String → String) (st : TokenStore)
    (ul : UserLogin) (uid : Int)
    (hk : (ul.hash_password hf).check st = some uid) :
    ∃ u, u ∈ st.users ∧ u.id = uid
      ∧ (if ul.is_email then u.email = ul.username_or_email
          else u.username = ul.username_or_email)
      ∧ u.password = hf ul.password := by
  have ha : (ul.hash_password hf).is_email = ul.is_email := rfl
  by_cases he : ul.is_email
  · simp only [UserLogin.check, ha, he, if_true] at hk
    have hk2 : Option.map (fun u : UserRow => u.id)
        (st.users.find? (fun x =>
          x.email == ul.username_or_email &&
          x.password == hf ul.password)) = some uid := hk
    obtain ⟨u, hfind, hid⟩ := Option.map_eq_some'.mp hk2
    have hmem := List.mem_of_find?_eq_some hfind
    have hpred := List.find?_some hfind
    simp at hpred
    exact ⟨u, hmem, hid, by simp [he, hpred.1], hpred.2⟩
  · simp only [UserLogin.check, ha, he, if_false] at hk
    have hk2 : Option.map (fun u : UserRow => u.id)
        (st.users.find? (fun x =>
          x.username == ul.username_or_email &&
          x.password == hf ul.password)) = some uid := hk
    obtain ⟨u, hfind, hid⟩ := Option.map_eq_some'.mp hk2
    have hmem := List.mem_of_find?_eq_some hfind
    have hpred := List.find?_some hfind
    simp at hpred
    exact ⟨u, hmem, hid, by simp [he, hpred.1], hpred.2⟩

/-- C9: login succeeds exactly when a user row matches the identifier —
compared against email when it contains `@`, against username otherwise —
and the stored hash equals the digest of the supplied password (a single
unsalted application of the SHA-512 hex digest to the raw password); the
returned token carries the matched row's id; and every credential failure is
the same generic answer (409, the same store untouched) whether the user was
missing or the password wrong. -/
theorem c9_login_characterization (hf : String → String) (st : TokenStore)
    (ul : UserLogin) (now : Int) (rt atok : String) :
    ((∃ resp st2, login_route hf st ul now rt atok = (.ok resp, st2)) ↔
      ∃ u, u ∈ st.users
        ∧ (if ul.is_email then u.email = ul.username_or_email
            else u.username = ul.username_or_email)
        ∧ u.password = hf ul.password)
    ∧ (∀ resp st2, login_route hf st ul now rt atok = (.ok resp, st2) →
        ∃ u, u ∈ st.users ∧ resp.bearer_token.claims.user_id = u.id
          ∧ (if ul.is_email then u.email = ul.username_or_email
              else u.username = ul.username_or_email)
          ∧ u.password = hf ul.password)
    ∧ ((ul.hash_password hf).check st = none →
        login_route hf st ul now rt atok = (.error 409, st)) := by
  cases hk : (ul.hash_password hf).check st with
  | none =>
    have hroute : login_route hf st ul now rt atok = (.error 409, st) := by
      simp [login_route, login_route_f, hk]
    refine ⟨?_, ?_, fun _ => hroute⟩
    · constructor
      · rintro ⟨resp, st2, hr⟩
        rw [hroute] at hr
        exact absurd hr (by simp)
      · intro hex
        have hs : ((ul.hash_password hf).check st).isSome = true :=
          (check_isSome_iff hf st ul).mpr hex
        rw [hk] at hs
        exact absurd hs (by simp)
    · intro resp st2 hr
      rw [hroute] at hr
      exact absurd hr (by simp)
  | some uid =>
    obtain ⟨u, humem, huid, hcond, hpass⟩ := check_some_elim hf st ul uid hk
    have hg : ∃ w, get_user_by_id (insert_session_tokens st uid rt atok
        now).1 uid = some w := by
      have : ((insert_session_tokens st uid rt atok now).1.users.find?
          (fun x => x.id == uid)).isSome = true := by
        refine List.find?_isSome.mpr ⟨u, ?_, by simp [huid]⟩
        exact humem
      rcases ho : (insert_session_tokens st uid rt atok now).1.users.find?
          (fun x => x.id == uid) with _ | w
      · rw [ho] at this; exact absurd this (by simp)
      · exact ⟨w, ho⟩
    obtain ⟨w, hw⟩ := hg
    have hroute : login_route hf st ul now rt atok =
        (.ok { username := w.username, email := w.email,
               bearer_token := (Claims.new uid now rt atok).encode },
         (insert_session_tokens st uid rt atok now).1) := by
      simp [login_route, login_route_f, hk, hw]
    refine ⟨?_, ?_, ?_⟩
    · constructor
      · intro _
        exact ⟨u, humem, hcond, hpass⟩
      · intro _
        exact ⟨_, _, hroute⟩
    · intro resp st2 hr
      rw [hroute] at hr
      have h2 : resp = ({ username := w.username, email := w.email,
                          bearer_token :=
                            (Claims.new uid now rt atok).encode } :
            LoginResponse) := by
        have h1 := congrArg Prod.fst hr
        simp at h1
        exact h1.symm
      refine ⟨u, humem, ?_, hcond, hpass⟩
      rw [h2]
      show uid = u.id
      exact huid.symm
    · intro hn
      exact absurd hn (by simp)

/-- C9 witness: alice logs in with her username and correct password; the
minted token carries her id. -/
theorem c9_witness :
    ∃ resp st2, login_route (fun s => s) wTokenStore
      { username_or_email := ("alice"), password := ("pw") } 5 ("r1") ("a1")
      = (.ok resp, st2) :=
  ((c9_login_characterization (fun s => s) wTokenStore
    { username_or_email := ("alice"), password := ("pw") } 5 ("r1")
    ("a1")).1).mpr ⟨wUser, by decide, by decide, by decide⟩

/-- C8 counterexample: a share link whose `expiration` column lies in the
past (of every non-negative clock) is accepted by the guard — the function
consults no clock at all — refuting "an expired share link is rejected with
a credential error, never accepted". -/
theorem c8_counterexample :
    SharedAlbumLinkSecurity.from_request (fun s => s) c8Store ("u1") ("")
      = .ok { album_share_link_uuid := ("share123"), password := none }
    ∧ c8Link.expiration = some (-5)
    ∧ select_album_share_link_by_uuid c8Store ("u1") = some c8Link := by
  exact ⟨rfl, rfl, rfl⟩

/-- C8 (amended): share-link validation succeeds exactly when a share-link
row with the presented uuid exists, its album exists, and the optional
digest of the supplied password equals the stored password column (an
absent stored password is open only to an absent supplied password); a
wrong password is answered 401; but the row's `expiration` column is never
consulted, so an expired share link is accepted like a live one. -/
theorem c8_amended (hf : String → String) (st : ShareStore) (u p : String) :
    ((∃ sec, SharedAlbumLinkSecurity.from_request hf st u p = .ok sec) ↔
      ∃ row album, select_album_share_link_by_uuid st u = some row
        ∧ select_album st row.album_id = some album
        ∧ (if p.length == 0 then (none : Option String) else some (hf p))
            = row.password)
    ∧ (∀ row album, select_album_share_link_by_uuid st u = some row →
        select_album st row.album_id = some album →
        (if p.length == 0 then (none : Option String) else some (hf p))
            ≠ row.password →
        SharedAlbumLinkSecurity.from_request hf st u p = .error 401)
    ∧ (∀ g : AlbumShareLinkRow → Option Int,
        SharedAlbumLinkSecurity.from_request hf
          { st with albumShareLinks :=
              st.albumShareLinks.map (fun r => { r with expiration := g r }) }
          u p
        = SharedAlbumLinkSecurity.from_request hf st u p) := by
  refine ⟨?_, ?_, ?_⟩
  · cases hrow : select_album_share_link_by_uuid st u with
    | none =>
      constructor
      · rintro ⟨sec, hs⟩
        simp [SharedAlbumLinkSecurity.from_request, hrow] at hs
      · rintro ⟨row, album, h1, _, _⟩
        exact absurd h1 (by simp)
    | some row =>
      cases halb : select_album st row.album_id with
      | none =>
        constructor
        · rintro ⟨sec, hs⟩
          simp [SharedAlbumLinkSecurity.from_request, hrow, halb] at hs
        · rintro ⟨row2, album, h1, h2, _⟩
          have hrr : row2 = row := by simpa using h1.symm
          rw [hrr, halb] at h2
          exact absurd h2 (by simp)
      | some album =>
        by_cases hpw : (if p.length == 0 then (none : Option String)
            else some (hf p)) = row.password
        · constructor
          · intro _
            exact ⟨row, album, rfl, halb, hpw⟩
          · intro _
            refine ⟨{ album_share_link_uuid := album.link,
                      password := if p.length == 0 then none
                        else some (hash_password hf p) }, ?_⟩
            simp [SharedAlbumLinkSecurity.from_request, hrow, halb]
            simp [hash_password] at hpw ⊢
            simp [hpw]
        · constructor
          · rintro ⟨sec, hs⟩
            simp only [SharedAlbumLinkSecurity.from_request, hrow, halb]
              at hs
            rw [if_neg (by simpa [hash_password] using hpw)] at hs
            exact absurd hs (by simp)
          · rintro ⟨row2, album2, h1, h2, h3⟩
            have hrr : row2 = row := by simpa using h1.symm
            rw [hrr] at h3
            exact absurd h3 hpw
  · intro row album h1 h2 h3
    simp only [SharedAlbumLinkSecurity.from_request, h1, h2]
    rw [if_neg (by simpa [hash_password] using h3)]
  · intro g
    have hl : (st.albumShareLinks.map
        (fun r => { r with expiration := g r })).find?
          (fun r => r.uuid == u)
        = (st.albumShareLinks.find? (fun r => r.uuid == u)).map
          (fun r => { r with expiration := g r }) :=
      List.find?_map _ _
    cases hrow : st.albumShareLinks.find? (fun r => r.uuid == u) with
    | none =>
      simp [SharedAlbumLinkSecurity.from_request,
        select_album_share_link_by_uuid, hl, hrow]
    | some row =>
      simp only [SharedAlbumLinkSecurity.from_request,
        select_album_share_link_by_uuid, hl, hrow, Option.map_some']
      rfl

/-- C8 witness: a wrong password against a password-protected live link is
answered 401. -/
theorem c8_witness :
    SharedAlbumLinkSecurity.from_request (fun s => s) c8StorePw ("u2") ("bad")
      = .error 401 :=
  (c8_amended (fun s => s) c8StorePw ("u2") ("bad")).2.1 c8LinkPw c8Album
    (by decide) (by decide) (by decide)

/-- C7 counterexample: on a store whose folder parent chain is a two-cycle,
the ancestor-chain resolver is still recursing after 129 allotted steps —
there is no 128-step bound after which it returns a failure. -/
theorem c7_counterexample :
    select_parent_folder_recursive c7Store 7 129 c7FolderA [] = none := by
  rfl

/-- One step of the cyclic walk from folder 1 lands on folder 2. -/
theorem c7_step_a (k : Nat) (vec : List FolderRow) :
    select_parent_folder_recursive c7Store 7 (k + 1) c7FolderA vec
    = select_parent_folder_recursive c7Store 7 k c7FolderB
        (vec ++ [c7FolderB]) := rfl

/-- One step of the cyclic walk from folder 2 lands back on folder 1. -/
theorem c7_step_b (k : Nat) (vec : List FolderRow) :
    select_parent_folder_recursive c7Store 7 (k + 1) c7FolderB vec
    = select_parent_folder_recursive c7Store 7 k c7FolderA
        (vec ++ [c7FolderA]) := rfl

/-- C7 (amended): the ancestor-chain resolver carries no depth bound at all:
on a cyclic parent chain it never terminates — for every recursion budget
the walk is still running — instead of stopping at a 128-step cap with a
failure; it stops only when a null parent or a missing parent row is
reached. -/
theorem c7_amended : ∀ (n : Nat) (vec : List FolderRow),
    select_parent_folder_recursive c7Store 7 n c7FolderA vec = none
    ∧ select_parent_folder_recursive c7Store 7 n c7FolderB vec = none := by
  intro n
  induction n with
  | zero => intro vec; exact ⟨rfl, rfl⟩
  | succ k ih =>
    intro vec
    constructor
    · rw [c7_step_a]
      exact (ih _).2
    · rw [c7_step_b]
      exact (ih _).1

/-- C6: on the failing tree — the user root holds `a/x.jpg` and `a/b/y.jpg`
— the discover walk returns only `a/b`, omitting `a` even though `a`
directly contains the supported media file `x.jpg`: a directory whose
subdirectories bear media returns early before its own files are examined
(the FIXME at src/src/routes/mod.rs:395 records the same skipping for media
directly under the scanned root). -/
theorem c6_discover_skips_mixed_dir :
    (scan_recursively c6Tree [] []).1 = [[("a"), ("b")]]
    ∧ (c6DirA.files.filter is_media_supported).length > 0
    ∧ [("a")] ∉ (scan_recursively c6Tree [] []).1 := by
  have h : scan_recursively c6Tree [] [] = ([[("a"), ("b")]], true) := by
    simp [scan_recursively, scan_recursively_list, c6Tree, c6DirA, c6DirB,
      jpgFile, is_media_supported, valid_mime_types, rel_path_segs,
      FsDir.name, FsDir.subdirs, FsDir.files]
  rw [h]
  refine ⟨rfl, by decide, by decide⟩

/-! ## Scanner reconciliation lemmas: folder phase -/

/-- A successful child-folder lookup is stable under appending rows. -/
theorem find_child_folder_append_of_some (fl tl : List FolderRow)
    (name : String) (parent : Option Int) (uid : Int) (f : FolderRow)
    (h : find_child_folder fl name parent uid = some f) :
    find_child_folder (fl ++ tl) name parent uid = some f := by
  unfold find_child_folder at h ⊢
  rw [List.find?_append, h]
  rfl

/-- A failed child-folder lookup continues into the appended rows. -/
theorem find_child_folder_append_of_none (fl tl : List FolderRow)
    (name : String) (parent : Option Int) (uid : Int)
    (h : find_child_folder fl name parent uid = none) :
    find_child_folder (fl ++ tl) name parent uid
      = find_child_folder tl name parent uid := by
  unfold find_child_folder at h ⊢
  rw [List.find?_append, h]
  rfl

/-- A fully resolving folder chain keeps resolving, with the same rows, after
appending rows to the folder table. -/
theorem chain_resolves_append (fl tl : List FolderRow) (uid : Int)
    (segs : List String) (parent : Option Int)
    (h : chain_resolves fl uid segs parent = true) :
    chain_resolves (fl ++ tl) uid segs parent = true := by
  induction segs generalizing parent with
  | nil => rfl
  | cons s rest ih =>
    cases hf : find_child_folder fl s parent uid with
    | none => simp [chain_resolves, hf] at h
    | some f =>
      have h2 := find_child_folder_append_of_some fl tl s parent uid f hf
      simp only [chain_resolves, hf] at h
      simp only [chain_resolves, h2]
      exact ih _ h

/-- The per-path reconciliation touches only the folder table, which it can
only extend. -/
theorem add_folder_segs_frame (st : ScanStore) (uid : Int)
    (segs : List String) (parent : Option Int) :
    (add_folder_segs st uid segs parent).users = st.users
    ∧ (add_folder_segs st uid segs parent).media = st.media
    ∧ (add_folder_segs st uid segs parent).mediaNext = st.mediaNext
    ∧ ∃ tl, (add_folder_segs st uid segs parent).folders = st.folders ++ tl := by
  induction segs generalizing st parent with
  | nil => exact ⟨rfl, rfl, rfl, [], by simp [add_folder_segs]⟩
  | cons s rest ih =>
    cases hsel : select_child_folder_id st s parent uid with
    | some fid =>
      have hstep : add_folder_segs st uid (s :: rest) parent
          = add_folder_segs st uid rest (some fid) := by
        simp [add_folder_segs, hsel]
      rw [hstep]
      exact ih st (some fid)
    | none =>
      have hstep : add_folder_segs st uid (s :: rest) parent
          = add_folder_segs (insert_folder st uid s parent).1 uid rest
              (some (insert_folder st uid s parent).2) := by
        simp [add_folder_segs, hsel]
      rw [hstep]
      obtain ⟨h1, h2, h3, tl, h4⟩ :=
        ih (insert_folder st uid s parent).1 (some (insert_folder st uid s parent).2)
      refine ⟨h1, h2, h3, ⟨st.folderNext, uid, parent, s⟩ :: tl, ?_⟩
      rw [h4]
      simp [insert_folder]

/-- A path whose chain already fully resolves is reconciled without any
store change. -/
theorem add_folder_segs_of_chain (st : ScanStore) (uid : Int)
    (segs : List String) (parent : Option Int)
    (h : chain_resolves st.folders uid segs parent = true) :
    add_folder_segs st uid segs parent = st := by
  induction segs generalizing parent with
  | nil => rfl
  | cons s rest ih =>
    cases hf : find_child_folder st.folders s parent uid with
    | none => simp [chain_resolves, hf] at h
    | some f =>
      simp only [chain_resolves, hf] at h
      have hsel : select_child_folder_id st s parent uid = some f.id := by
        simp [select_child_folder_id, hf]
      have hstep : add_folder_segs st uid (s :: rest) parent
          = add_folder_segs st uid rest (some f.id) := by
        simp [add_folder_segs, hsel]
      rw [hstep]
      exact ih _ h

/-- After reconciling a path, its whole folder chain resolves in the
resulting folder table. -/
theorem add_folder_segs_chain (st : ScanStore) (uid : Int)
    (segs : List String) (parent : Option Int) :
    chain_resolves (add_folder_segs st uid segs parent).folders uid segs
      parent = true := by
  induction segs generalizing st parent with
  | nil => rfl
  | cons s rest ih =>
    cases hsel : select_child_folder_id st s parent uid with
    | some fid =>
      have hstep : add_folder_segs st uid (s :: rest) parent
          = add_folder_segs st uid rest (some fid) := by
        simp [add_folder_segs, hsel]
      obtain ⟨f, hf, hfid⟩ := Option.map_eq_some'.mp
        (show Option.map (fun f => f.id)
          (find_child_folder st.folders s parent uid) = some fid from hsel)
      obtain ⟨_, _, _, tl, hfl⟩ := add_folder_segs_frame st uid rest (some fid)
      rw [hstep]
      have hfind : find_child_folder
          (add_folder_segs st uid rest (some fid)).folders s parent uid
          = some f := by
        rw [hfl]
        exact find_child_folder_append_of_some _ _ _ _ _ _ hf
      simp only [chain_resolves, hfind, hfid]
      exact ih st (some fid)
    | none =>
      have hstep : add_folder_segs st uid (s :: rest) parent
          = add_folder_segs (insert_folder st uid s parent).1 uid rest
              (some st.folderNext) := by
        simp [add_folder_segs, hsel, insert_folder]
      rw [hstep]
      have hnone : find_child_folder st.folders s parent uid = none :=
        Option.map_eq_none'.mp (show Option.map (fun f => f.id)
          (find_child_folder st.folders s parent uid) = none from hsel)
      obtain ⟨_, _, _, tl, hfl⟩ := add_folder_segs_frame
        (insert_folder st uid s parent).1 uid rest (some st.folderNext)
      have hfind : find_child_folder
          (add_folder_segs (insert_folder st uid s parent).1 uid rest
            (some st.folderNext)).folders s parent uid
          = some ⟨st.folderNext, uid, parent, s⟩ := by
        rw [hfl]
        have : (insert_folder st uid s parent).1.folders
            = st.folders ++ [⟨st.folderNext, uid, parent, s⟩] := rfl
        rw [this, List.append_assoc]
        rw [find_child_folder_append_of_none _ _ _ _ _ hnone]
        unfold find_child_folder
        rw [List.singleton_append, List.find?_cons_of_pos]
        simp
      simp only [chain_resolves, hfind]
      exact ih (insert_folder st uid s parent).1 (some st.folderNext)

/-- The whole-run folder reconciliation fold touches only the folder table,
which it can only extend. -/
theorem add_folders_foldl_frame (paths : List (List String)) (st : ScanStore)
    (uid : Int) :
    (paths.foldl (fun acc p => add_folder_segs acc uid p none) st).users
        = st.users
    ∧ (paths.foldl (fun acc p => add_folder_segs acc uid p none) st).media
        = st.media
    ∧ (paths.foldl (fun acc p => add_folder_segs acc uid p none) st).mediaNext
        = st.mediaNext
    ∧ ∃ tl, (paths.foldl (fun acc p => add_folder_segs acc uid p none)
        st).folders = st.folders ++ tl := by
  induction paths generalizing st with
  | nil => exact ⟨rfl, rfl, rfl, [], by simp⟩
  | cons p rest ih =>
    obtain ⟨h1, h2, h3, tl1, h4⟩ := add_folder_segs_frame st uid p none
    obtain ⟨g1, g2, g3, tl2, g4⟩ := ih (add_folder_segs st uid p none)
    refine ⟨?_, ?_, ?_, tl1 ++ tl2, ?_⟩
    · rw [List.foldl_cons, g1, h1]
    · rw [List.foldl_cons, g2, h2]
    · rw [List.foldl_cons, g3, h3]
    · rw [List.foldl_cons, g4, h4, List.append_assoc]

/-- After the whole-run fold, every reconciled path's chain resolves. -/
theorem add_folders_foldl_chain (paths : List (List String)) (st : ScanStore)
    (uid : Int) :
    ∀ p ∈ paths, chain_resolves
      (paths.foldl (fun acc p => add_folder_segs acc uid p none) st).folders
      uid p none = true := by
  induction paths generalizing st with
  | nil => intro p hp; exact absurd hp (by simp)
  | cons p0 rest ih =>
    intro p hp
    rw [List.foldl_cons]
    rcases List.mem_cons.mp hp with hp0 | hmem
    · obtain ⟨_, _, _, tl, hfl⟩ :=
        add_folders_foldl_frame rest (add_folder_segs st uid p0 none) uid
      rw [hfl, hp0]
      exact chain_resolves_append _ _ _ _ _
        (add_folder_segs_chain st uid p0 none)
    · exact ih (add_folder_segs st uid p0 none) p hmem

/-- When every path's chain already resolves, the whole-run fold is the
identity. -/
theorem add_folders_foldl_noop (paths : List (List String)) (st : ScanStore)
    (uid : Int)
    (h : ∀ p ∈ paths, chain_resolves st.folders uid p none = true) :
    paths.foldl (fun acc p => add_folder_segs acc uid p none) st = st := by
  induction paths with
  | nil => rfl
  | cons p0 rest ih =>
    rw [List.foldl_cons, add_folder_segs_of_chain st uid p0 none
      (h p0 (by simp))]
    exact ih (fun p hp => h p (List.mem_cons_of_mem _ hp))

/-! ## Scanner reconciliation lemmas: media phase -/

/-- A present media row stays present after appending rows. -/
theorem find_media_isSome_append (ml tl : List MediaRow) (name : String)
    (pf : FolderRow) (uid : Int)
    (h : (find_media ml name pf uid).isSome = true) :
    (find_media (ml ++ tl) name pf uid).isSome = true := by
  unfold find_media at h ⊢
  rcases ho : ml.find? (fun m => m.filename == name && m.owner_id == uid
      && m.folder_id == pf.id) with _ | m
  · rw [ho] at h; exact absurd h (by simp)
  · rw [List.find?_append, ho]
    rfl

/-- A directory whose media are all present keeps that property after
appending media rows. -/
theorem folder_media_complete_append (fs : DirListing) (ml tl : List MediaRow)
    (pf : FolderRow) (path : String) (uid : Int)
    (h : folder_media_complete fs ml pf path uid = true) :
    folder_media_complete fs (ml ++ tl) pf path uid = true := by
  unfold folder_media_complete at h ⊢
  cases hg : folder_get_media fs path with
  | none => rfl
  | some files =>
    rw [hg] at h
    rw [List.all_eq_true] at h ⊢
    intro f hf
    exact find_media_isSome_append _ _ _ _ _ (h f hf)

/-- One file-reconciliation step touches only the media table, which it can
only extend. -/
theorem scan_media_file_frame (st : ScanStore) (pf : FolderRow) (uid : Int)
    (f : FsFile) :
    (scan_media_file st pf uid f).users = st.users
    ∧ (scan_media_file st pf uid f).folders = st.folders
    ∧ (scan_media_file st pf uid f).folderNext = st.folderNext
    ∧ ∃ tl, (scan_media_file st pf uid f).media = st.media ++ tl := by
  unfold scan_media_file
  cases hc : check_if_media_present st f.name pf uid with
  | some m => exact ⟨rfl, rfl, rfl, [], by simp⟩
  | none => exact ⟨rfl, rfl, rfl,
      [⟨st.mediaNext, f.name, pf.id, uid, 0, 0, none, 10, f.sha2_512⟩],
      by simp [insert_media]⟩

/-- After one file-reconciliation step the file is present. -/
theorem scan_media_file_establish (st : ScanStore) (pf : FolderRow)
    (uid : Int) (f : FsFile) :
    (find_media (scan_media_file st pf uid f).media f.name pf uid).isSome
      = true := by
  unfold scan_media_file
  cases hc : check_if_media_present st f.name pf uid with
  | some m =>
    have : (find_media st.media f.name pf uid).isSome = true := by
      rcases ho : find_media st.media f.name pf uid with _ | q
      · rw [check_if_media_present, ho] at hc; exact absurd hc (by simp)
      · rfl
    exact this
  | none =>
    refine List.find?_isSome.mpr
      ⟨⟨st.mediaNext, f.name, pf.id, uid, 0, 0, none, 10, f.sha2_512⟩, ?_, ?_⟩
    · simp [insert_media]
    · simp

/-- A file already present is skipped without any store change. -/
theorem scan_media_file_noop (st : ScanStore) (pf : FolderRow) (uid : Int)
    (f : FsFile) (h : (find_media st.media f.name pf uid).isSome = true) :
    scan_media_file st pf uid f = st := by
  unfold scan_media_file
  rcases ho : find_media st.media f.name pf uid with _ | m
  · rw [ho] at h; exact absurd h (by simp)
  · simp [check_if_media_present, ho]

/-- The file-reconciliation fold touches only the media table, which it can
only extend. -/
theorem media_fold_frame (files : List FsFile) (st : ScanStore)
    (pf : FolderRow) (uid : Int) :
    (files.foldl (fun acc f => scan_media_file acc pf uid f) st).users
        = st.users
    ∧ (files.foldl (fun acc f => scan_media_file acc pf uid f) st).folders
        = st.folders
    ∧ (files.foldl (fun acc f => scan_media_file acc pf uid f) st).folderNext
        = st.folderNext
    ∧ ∃ tl, (files.foldl (fun acc f => scan_media_file acc pf uid f)
        st).media = st.media ++ tl := by
  induction files generalizing st with
  | nil => exact ⟨rfl, rfl, rfl, [], by simp⟩
  | cons f rest ih =>
    obtain ⟨h1, h2, h3, tl1, h4⟩ := scan_media_file_frame st pf uid f
    obtain ⟨g1, g2, g3, tl2, g4⟩ := ih (scan_media_file st pf uid f)
    refine ⟨?_, ?_, ?_, tl1 ++ tl2, ?_⟩
    · rw [List.foldl_cons, g1, h1]
    · rw [List.foldl_cons, g2, h2]
    · rw [List.foldl_cons, g3, h3]
    · rw [List.foldl_cons, g4, h4, List.append_assoc]

/-- After the file-reconciliation fold, every file of the list is present. -/
theorem media_fold_establish (files : List FsFile) (st : ScanStore)
    (pf : FolderRow) (uid : Int) :
    ∀ f ∈ files, (find_media
      ((files.foldl (fun acc f => scan_media_file acc pf uid f) st).media)
      f.name pf uid).isSome = true := by
  induction files generalizing st with
  | nil => intro f hf; exact absurd hf (by simp)
  | cons f0 rest ih =>
    intro f hf
    rw [List.foldl_cons]
    rcases List.mem_cons.mp hf with hf0 | hmem
    · obtain ⟨_, _, _, tl, hm⟩ := media_fold_frame rest
        (scan_media_file st pf uid f0) pf uid
      rw [hm, hf0]
      exact find_media_isSome_append _ _ _ _ _
        (scan_media_file_establish st pf uid f0)
    · exact ih (scan_media_file st pf uid f0) f hmem

/-- When every file of the list is present, the fold is the identity. -/
theorem media_fold_noop (files : List FsFile) (st : ScanStore)
    (pf : FolderRow) (uid : Int)
    (h : ∀ f ∈ files, (find_media st.media f.name pf uid).isSome = true) :
    files.foldl (fun acc f => scan_media_file acc pf uid f) st = st := by
  induction files with
  | nil => rfl
  | cons f0 rest ih =>
    rw [List.foldl_cons, scan_media_file_noop st pf uid f0 (h f0 (by simp))]
    exact ih (fun f hf => h f (List.mem_cons_of_mem _ hf))

/-- One directory's media reconciliation touches only the media table, which
it can only extend. -/
theorem scan_folder_media_frame (fs : DirListing) (st : ScanStore)
    (pf : FolderRow) (path : String) (uid : Int) :
    (scan_folder_media fs st pf path uid).users = st.users
    ∧ (scan_folder_media fs st pf path uid).folders = st.folders
    ∧ (scan_folder_media fs st pf path uid).folderNext = st.folderNext
    ∧ ∃ tl, (scan_folder_media fs st pf path uid).media = st.media ++ tl := by
  unfold scan_folder_media
  cases hg : folder_get_media fs path with
  | none => exact ⟨rfl, rfl, rfl, [], by simp⟩
  | some files =>
    by_cases he : files.isEmpty
    · refine ⟨?_, ?_, ?_, [], ?_⟩ <;> simp [he]
    · simp only [he, if_false]
      exact media_fold_frame files st pf uid

/-- A directory whose media are all present is reconciled without any store
change. -/
theorem scan_folder_media_noop (fs : DirListing) (st : ScanStore)
    (pf : FolderRow) (path : String) (uid : Int)
    (h : folder_media_complete fs st.media pf path uid = true) :
    scan_folder_media fs st pf path uid = st := by
  unfold scan_folder_media
  cases hg : folder_get_media fs path with
  | none => rfl
  | some files =>
    by_cases he : files.isEmpty
    · simp [he]
    · simp only [he, if_false]
      unfold folder_media_complete at h
      rw [hg, List.all_eq_true] at h
      exact media_fold_noop files st pf uid h

/-- After one directory's media reconciliation, its media are all present. -/
theorem scan_folder_media_establish (fs : DirListing) (st : ScanStore)
    (pf : FolderRow) (path : String) (uid : Int) :
    folder_media_complete fs (scan_folder_media fs st pf path uid).media pf
      path uid = true := by
  unfold scan_folder_media folder_media_complete
  cases hg : folder_get_media fs path with
  | none => rfl
  | some files =>
    by_cases he : files.isEmpty
    · simp only [he, if_true]
      rw [List.isEmpty_iff] at he
      rw [he]
      rfl
    · simp only [he, if_false]
      rw [List.all_eq_true]
      intro f hf
      exact media_fold_establish files st pf uid f hf

/-! ## Scanner reconciliation lemmas: folder-tree traversal -/

/-- Unfolding of `scan_select` at a positive budget. -/
theorem scan_select_step (fs : DirListing) (xdg un : String) (uid : Int)
    (k : Nat) (st : ScanStore) (pf : FolderRow) (path0 : String) :
    scan_select fs xdg un uid (k + 1) st pf path0
    = scan_select_list fs xdg un uid k
        (scan_folder_media fs st pf
          (if path0 == String.mk [] then
            xdg ++ ("/") ++ un ++ ("/") ++ pf.name ++ ("/")
          else path0) uid)
        (select_subfolders st pf uid)
        (if path0 == String.mk [] then
          xdg ++ ("/") ++ un ++ ("/") ++ pf.name ++ ("/")
        else path0) := by
  simp only [scan_select]

/-- Unfolding of `scan_select_list` on a cons cell. -/
theorem scan_select_list_cons (fs : DirListing) (xdg un : String) (uid : Int)
    (k : Nat) (st : ScanStore) (f : FolderRow) (rest : List FolderRow)
    (path : String) :
    scan_select_list fs xdg un uid k st (f :: rest) path
    = scan_select_list fs xdg un uid k
        (scan_select fs xdg un uid k st f (path ++ ("/") ++ f.name ++ ("/")))
        rest path := by
  simp only [scan_select_list]

/-- Unfolding of `scan_select_complete` at a positive budget. -/
theorem scan_select_complete_step (fs : DirListing) (xdg un : String)
    (uid : Int) (fl : List FolderRow) (k : Nat) (pf : FolderRow)
    (path0 : String) (media : List MediaRow) :
    scan_select_complete fs xdg un uid fl (k + 1) pf path0 media
    = (folder_media_complete fs media pf
        (if path0 == String.mk [] then
          xdg ++ ("/") ++ un ++ ("/") ++ pf.name ++ ("/")
        else path0) uid
      && scan_select_complete_list fs xdg un uid fl k
          (subfolders_of fl pf uid)
          (if path0 == String.mk [] then
            xdg ++ ("/") ++ un ++ ("/") ++ pf.name ++ ("/")
          else path0) media) := by
  simp only [scan_select_complete]

/-- Unfolding of `scan_select_complete_list` on a cons cell. -/
theorem scan_select_complete_list_cons (fs : DirListing) (xdg un : String)
    (uid : Int) (fl : List FolderRow) (k : Nat) (f : FolderRow)
    (rest : List FolderRow) (path : String) (media : List MediaRow) :
    scan_select_complete_list fs xdg un uid fl k (f :: rest) path media
    = (scan_select_complete fs xdg un uid fl k f
        (path ++ ("/") ++ f.name ++ ("/")) media
      && scan_select_complete_list fs xdg un uid fl k rest path media) := by
  simp only [scan_select_complete_list]

/-- The subtree traversal touches only the media table, which it can only
extend. -/
theorem scan_select_frame (fs : DirListing) (xdg un : String) (uid : Int) :
    ∀ (fuel : Nat) (st : ScanStore) (pf : FolderRow) (path0 : String),
    (scan_select fs xdg un uid fuel st pf path0).users = st.users
    ∧ (scan_select fs xdg un uid fuel st pf path0).folders = st.folders
    ∧ (scan_select fs xdg un uid fuel st pf path0).folderNext = st.folderNext
    ∧ ∃ tl, (scan_select fs xdg un uid fuel st pf path0).media
        = st.media ++ tl := by
  intro fuel
  induction fuel with
  | zero =>
    intro st pf path0
    refine ⟨?_, ?_, ?_, [], ?_⟩ <;> simp [scan_select]
  | succ k ih =>
    have hlist : ∀ (l : List FolderRow) (st : ScanStore) (path : String),
        (scan_select_list fs xdg un uid k st l path).users = st.users
        ∧ (scan_select_list fs xdg un uid k st l path).folders = st.folders
        ∧ (scan_select_list fs xdg un uid k st l path).folderNext
            = st.folderNext
        ∧ ∃ tl, (scan_select_list fs xdg un uid k st l path).media
            = st.media ++ tl := by
      intro l
      induction l with
      | nil =>
        intro st path
        refine ⟨?_, ?_, ?_, [], ?_⟩ <;> simp [scan_select_list]
      | cons f rest ihl =>
        intro st path
        rw [scan_select_list_cons]
        obtain ⟨a1, a2, a3, t1, a4⟩ :=
          ih st f (path ++ ("/") ++ f.name ++ ("/"))
        obtain ⟨b1, b2, b3, t2, b4⟩ := ihl
          (scan_select fs xdg un uid k st f (path ++ ("/") ++ f.name ++ ("/")))
          path
        exact ⟨by rw [b1, a1], by rw [b2, a2], by rw [b3, a3], t1 ++ t2,
          by rw [b4, a4, List.append_assoc]⟩
    intro st pf path0
    rw [scan_select_step]
    generalize (if path0 == String.mk [] then
        xdg ++ ("/") ++ un ++ ("/") ++ pf.name ++ ("/")
      else path0) = pth
    obtain ⟨m1, m2, m3, t1, m4⟩ := scan_folder_media_frame fs st pf pth uid
    obtain ⟨l1, l2, l3, t2, l4⟩ := hlist (select_subfolders st pf uid)
      (scan_folder_media fs st pf pth uid) pth
    exact ⟨by rw [l1, m1], by rw [l2, m2], by rw [l3, m3], t1 ++ t2,
      by rw [l4, m4, List.append_assoc]⟩

/-- The sibling-list traversal touches only the media table, which it can
only extend. -/
theorem scan_select_list_frame (fs : DirListing) (xdg un : String)
    (uid : Int) (k : Nat) :
    ∀ (l : List FolderRow) (st : ScanStore) (path : String),
    (scan_select_list fs xdg un uid k st l path).users = st.users
    ∧ (scan_select_list fs xdg un uid k st l path).folders = st.folders
    ∧ (scan_select_list fs xdg un uid k st l path).folderNext = st.folderNext
    ∧ ∃ tl, (scan_select_list fs xdg un uid k st l path).media
        = st.media ++ tl := by
  intro l
  induction l with
  | nil =>
    intro st path
    refine ⟨?_, ?_, ?_, [], ?_⟩ <;> simp [scan_select_list]
  | cons f rest ihl =>
    intro st path
    rw [scan_select_list_cons]
    obtain ⟨a1, a2, a3, t1, a4⟩ := scan_select_frame fs xdg un uid k st f
      (path ++ ("/") ++ f.name ++ ("/"))
    obtain ⟨b1, b2, b3, t2, b4⟩ := ihl
      (scan_select fs xdg un uid k st f (path ++ ("/") ++ f.name ++ ("/")))
      path
    exact ⟨by rw [b1, a1], by rw [b2, a2], by rw [b3, a3], t1 ++ t2,
      by rw [b4, a4, List.append_assoc]⟩

/-- Traversal completeness is stable under appending media rows. -/
theorem scan_select_complete_append (fs : DirListing) (xdg un : String)
    (uid : Int) (fl : List FolderRow) :
    ∀ (fuel : Nat) (pf : FolderRow) (path0 : String) (media tl : List MediaRow),
    scan_select_complete fs xdg un uid fl fuel pf path0 media = true →
    scan_select_complete fs xdg un uid fl fuel pf path0 (media ++ tl)
      = true := by
  intro fuel
  induction fuel with
  | zero =>
    intro pf path0 media tl _
    simp [scan_select_complete]
  | succ k ih =>
    have hlist : ∀ (l : List FolderRow) (path : String)
        (media tl : List MediaRow),
        scan_select_complete_list fs xdg un uid fl k l path media = true →
        scan_select_complete_list fs xdg un uid fl k l path (media ++ tl)
          = true := by
      intro l
      induction l with
      | nil =>
        intro path media tl _
        simp [scan_select_complete_list]
      | cons f rest ihl =>
        intro path media tl h
        rw [scan_select_complete_list_cons, Bool.and_eq_true] at h
        rw [scan_select_complete_list_cons, Bool.and_eq_true]
        exact ⟨ih f _ media tl h.1, ihl path media tl h.2⟩
    intro pf path0 media tl h
    rw [scan_select_complete_step, Bool.and_eq_true] at h
    rw [scan_select_complete_step, Bool.and_eq_true]
    exact ⟨folder_media_complete_append fs media tl pf _ uid h.1,
      hlist _ _ media tl h.2⟩

/-- After a subtree traversal, every directory the traversal visited has its
media present (relative to the fixed folder table the traversal reads). -/
theorem scan_select_establish (fs : DirListing) (xdg un : String) (uid : Int)
    (fl : List FolderRow) :
    ∀ (fuel : Nat) (st : ScanStore) (pf : FolderRow) (path0 : String),
    st.folders = fl →
    scan_select_complete fs xdg un uid fl fuel pf path0
      ((scan_select fs xdg un uid fuel st pf path0).media) = true := by
  intro fuel
  induction fuel with
  | zero =>
    intro st pf path0 _
    simp [scan_select_complete]
  | succ k ih =>
    have hlist : ∀ (l : List FolderRow) (st : ScanStore) (path : String),
        st.folders = fl →
        scan_select_complete_list fs xdg un uid fl k l path
          ((scan_select_list fs xdg un uid k st l path).media) = true := by
      intro l
      induction l with
      | nil =>
        intro st path _
        simp [scan_select_complete_list]
      | cons f rest ihl =>
        intro st path hfl
        rw [scan_select_list_cons, scan_select_complete_list_cons,
          Bool.and_eq_true]
        constructor
        · obtain ⟨_, _, _, tl, hm⟩ := scan_select_list_frame fs xdg un uid k
            rest (scan_select fs xdg un uid k st f
              (path ++ ("/") ++ f.name ++ ("/"))) path
          rw [hm]
          exact scan_select_complete_append fs xdg un uid fl k f _ _ tl
            (ih st f (path ++ ("/") ++ f.name ++ ("/")) hfl)
        · refine ihl (scan_select fs xdg un uid k st f
            (path ++ ("/") ++ f.name ++ ("/"))) path ?_
          rw [(scan_select_frame fs xdg un uid k st f
            (path ++ ("/") ++ f.name ++ ("/"))).2.1]
          exact hfl
    intro st pf path0 hfl
    rw [scan_select_step, scan_select_complete_step, Bool.and_eq_true]
    generalize (if path0 == String.mk [] then
        xdg ++ ("/") ++ un ++ ("/") ++ pf.name ++ ("/")
      else path0) = pth
    constructor
    · obtain ⟨_, _, _, tl, hm⟩ := scan_select_list_frame fs xdg un uid k
        (select_subfolders st pf uid) (scan_folder_media fs st pf pth uid) pth
      rw [hm]
      exact folder_media_complete_append fs _ tl pf pth uid
        (scan_folder_media_establish fs st pf pth uid)
    · have hsubs : select_subfolders st pf uid = subfolders_of fl pf uid := by
        rw [select_subfolders, hfl]
      rw [← hsubs]
      refine hlist (select_subfolders st pf uid)
        (scan_folder_media fs st pf pth uid) pth ?_
      rw [(scan_folder_media_frame fs st pf pth uid).2.1]
      exact hfl

/-- A subtree traversal over directories whose media are already all present
changes nothing. -/
theorem scan_select_noop (fs : DirListing) (xdg un : String) (uid : Int) :
    ∀ (fuel : Nat) (st : ScanStore) (pf : FolderRow) (path0 : String),
    scan_select_complete fs xdg un uid st.folders fuel pf path0 st.media
      = true →
    scan_select fs xdg un uid fuel st pf path0 = st := by
  intro fuel
  induction fuel with
  | zero =>
    intro st pf path0 _
    simp [scan_select]
  | succ k ih =>
    have hlist : ∀ (l : List FolderRow) (st : ScanStore) (path : String),
        scan_select_complete_list fs xdg un uid st.folders k l path st.media
          = true →
        scan_select_list fs xdg un uid k st l path = st := by
      intro l
      induction l with
      | nil =>
        intro st path _
        simp [scan_select_list]
      | cons f rest ihl =>
        intro st path h
        rw [scan_select_complete_list_cons, Bool.and_eq_true] at h
        rw [scan_select_list_cons,
          ih st f (path ++ ("/") ++ f.name ++ ("/")) h.1]
        exact ihl st path h.2
    intro st pf path0 h
    rw [scan_select_complete_step, Bool.and_eq_true] at h
    rw [scan_select_step]
    rw [scan_folder_media_noop fs st pf _ uid h.1]
    refine hlist (select_subfolders st pf uid) st _ ?_
    rw [select_subfolders]
    exact h.2

/-! ## Scanner reconciliation lemmas: whole-run media phase -/

/-- The root-folder fold touches only the media table, which it can only
extend. -/
theorem root_fold_frame (fs : DirListing) (xdg un : String) (uid : Int)
    (fuel : Nat) :
    ∀ (roots : List FolderRow) (st : ScanStore),
    (roots.foldl (fun acc r =>
        scan_select fs xdg un uid fuel acc r (String.mk [])) st).users
      = st.users
    ∧ (roots.foldl (fun acc r =>
        scan_select fs xdg un uid fuel acc r (String.mk [])) st).folders
      = st.folders
    ∧ (roots.foldl (fun acc r =>
        scan_select fs xdg un uid fuel acc r (String.mk [])) st).folderNext
      = st.folderNext
    ∧ ∃ tl, (roots.foldl (fun acc r =>
        scan_select fs xdg un uid fuel acc r (String.mk [])) st).media
      = st.media ++ tl := by
  intro roots
  induction roots with
  | nil => intro st; exact ⟨rfl, rfl, rfl, [], by simp⟩
  | cons r rest ih =>
    intro st
    rw [List.foldl_cons]
    obtain ⟨a1, a2, a3, t1, a4⟩ :=
      scan_select_frame fs xdg un uid fuel st r (String.mk [])
    obtain ⟨b1, b2, b3, t2, b4⟩ :=
      ih (scan_select fs xdg un uid fuel st r (String.mk []))
    exact ⟨by rw [b1, a1], by rw [b2, a2], by rw [b3, a3], t1 ++ t2,
      by rw [b4, a4, List.append_assoc]⟩

/-- After the root-folder fold, every root's subtree is media-complete. -/
theorem root_fold_establish (fs : DirListing) (xdg un : String) (uid : Int)
    (fuel : Nat) (fl : List FolderRow) :
    ∀ (roots : List FolderRow) (st : ScanStore), st.folders = fl →
    ∀ r ∈ roots, scan_select_complete fs xdg un uid fl fuel r (String.mk [])
      ((roots.foldl (fun acc q =>
        scan_select fs xdg un uid fuel acc q (String.mk [])) st).media)
      = true := by
  intro roots
  induction roots with
  | nil => intro st _ r hr; exact absurd hr (by simp)
  | cons r0 rest ih =>
    intro st hfl r hr
    rw [List.foldl_cons]
    rcases List.mem_cons.mp hr with hr0 | hmem
    · obtain ⟨_, _, _, tl, hm⟩ := root_fold_frame fs xdg un uid fuel rest
        (scan_select fs xdg un uid fuel st r0 (String.mk []))
      rw [hm, hr0]
      exact scan_select_complete_append fs xdg un uid fl fuel r0 _ _ tl
        (scan_select_establish fs xdg un uid fl fuel st r0 (String.mk []) hfl)
    · refine ih (scan_select fs xdg un uid fuel st r0 (String.mk [])) ?_ r hmem
      rw [(scan_select_frame fs xdg un uid fuel st r0 (String.mk [])).2.1]
      exact hfl

/-- A root-folder fold over media-complete subtrees changes nothing. -/
theorem root_fold_noop (fs : DirListing) (xdg un : String) (uid : Int)
    (fuel : Nat) :
    ∀ (roots : List FolderRow) (st : ScanStore),
    (∀ r ∈ roots, scan_select_complete fs xdg un uid st.folders fuel r
      (String.mk []) st.media = true) →
    roots.foldl (fun acc q =>
      scan_select fs xdg un uid fuel acc q (String.mk [])) st = st := by
  intro roots
  induction roots with
  | nil => intro st _; rfl
  | cons r0 rest ih =>
    intro st h
    rw [List.foldl_cons,
      scan_select_noop fs xdg un uid fuel st r0 (String.mk [])
        (h r0 (by simp))]
    exact ih st (fun r hr => h r (List.mem_cons_of_mem _ hr))

/-- Equal user tables give equal username lookups. -/
theorem get_user_username_congr (st1 st2 : ScanStore) (uid : Int)
    (h : st1.users = st2.users) :
    st1.get_user_username uid = st2.get_user_username uid := by
  unfold ScanStore.get_user_username
  rw [h]

/-- `add_folders_to_db` with a missing user is the identity. -/
theorem add_folders_to_db_eq_of_none (st : ScanStore)
    (paths : List (List String)) (uid : Int)
    (hu : st.get_user_username uid = none) :
    add_folders_to_db st paths uid = st := by
  unfold add_folders_to_db
  rw [hu]

/-- `add_folders_to_db` with a resolved user is the per-path fold. -/
theorem add_folders_to_db_eq_of_some (st : ScanStore)
    (paths : List (List String)) (uid : Int) (un : String)
    (hu : st.get_user_username uid = some un) :
    add_folders_to_db st paths uid
    = paths.foldl (fun acc p => add_folder_segs acc uid p none) st := by
  unfold add_folders_to_db
  rw [hu]

/-- `scan_folders_for_media` with a missing user is the identity. -/
theorem scan_folders_for_media_eq_of_none (fs : DirListing) (st : ScanStore)
    (xdg : String) (uid : Int) (fuel : Nat)
    (hu : st.get_user_username uid = none) :
    scan_folders_for_media fs st xdg uid fuel = st := by
  unfold scan_folders_for_media
  rw [hu]

/-- `scan_folders_for_media` with a resolved user is the root-folder fold. -/
theorem scan_folders_for_media_eq_of_some (fs : DirListing) (st : ScanStore)
    (xdg : String) (uid : Int) (fuel : Nat) (un : String)
    (hu : st.get_user_username uid = some un) :
    scan_folders_for_media fs st xdg uid fuel
    = (select_root_folders st uid).foldl
        (fun acc q => scan_select fs xdg un uid fuel acc q (String.mk []))
        st := by
  unfold scan_folders_for_media
  rw [hu]

/-- `scan_root` with a missing user is the identity. -/
theorem scan_root_eq_of_none (fs : DirListing) (tree : FsDir) (st : ScanStore)
    (xdg : String) (uid : Int) (fuel : Nat)
    (hu : st.get_user_username uid = none) :
    scan_root fs tree st xdg uid fuel = st := by
  unfold scan_root
  rw [hu]

/-- `scan_root` with a resolved user is discover, folder phase, media
phase. -/
theorem scan_root_eq_of_some (fs : DirListing) (tree : FsDir) (st : ScanStore)
    (xdg : String) (uid : Int) (fuel : Nat) (un : String)
    (hu : st.get_user_username uid = some un) :
    scan_root fs tree st xdg uid fuel
    = scan_folders_for_media fs
        (add_folders_to_db st
          (if tree.subdirs.isEmpty && tree.files.isEmpty then []
           else (scan_recursively tree [] []).1) uid) xdg uid fuel := by
  unfold scan_root
  rw [hu]

/-- The folder-phase entry point touches only the folder table, which it can
only extend. -/
theorem add_folders_to_db_frame (st : ScanStore) (paths : List (List String))
    (uid : Int) :
    (add_folders_to_db st paths uid).users = st.users
    ∧ (add_folders_to_db st paths uid).media = st.media
    ∧ (add_folders_to_db st paths uid).mediaNext = st.mediaNext
    ∧ ∃ tl, (add_folders_to_db st paths uid).folders = st.folders ++ tl := by
  cases hu : st.get_user_username uid with
  | none =>
    rw [add_folders_to_db_eq_of_none st paths uid hu]
    exact ⟨rfl, rfl, rfl, [], by simp⟩
  | some un =>
    rw [add_folders_to_db_eq_of_some st paths uid un hu]
    exact add_folders_foldl_frame paths st uid

/-- The media-phase entry point touches only the media table, which it can
only extend. -/
theorem scan_folders_for_media_frame (fs : DirListing) (st : ScanStore)
    (xdg : String) (uid : Int) (fuel : Nat) :
    (scan_folders_for_media fs st xdg uid fuel).users = st.users
    ∧ (scan_folders_for_media fs st xdg uid fuel).folders = st.folders
    ∧ (scan_folders_for_media fs st xdg uid fuel).folderNext = st.folderNext
    ∧ ∃ tl, (scan_folders_for_media fs st xdg uid fuel).media
        = st.media ++ tl := by
  cases hu : st.get_user_username uid with
  | none =>
    rw [scan_folders_for_media_eq_of_none fs st xdg uid fuel hu]
    exact ⟨rfl, rfl, rfl, [], by simp⟩
  | some un =>
    rw [scan_folders_for_media_eq_of_some fs st xdg uid fuel un hu]
    exact root_fold_frame fs xdg un uid fuel (select_root_folders st uid) st

/-- Running the reconciliation pipeline (folder phase then media phase) a
second time over the same discovered paths changes nothing. -/
theorem scan_pipeline_idem (fs : DirListing) (xdg un : String) (uid : Int)
    (fuel : Nat) (F : List (List String)) (st : ScanStore)
    (hun : st.get_user_username uid = some un) :
    scan_folders_for_media fs
      (add_folders_to_db
        (scan_folders_for_media fs (add_folders_to_db st F uid) xdg uid fuel)
        F uid) xdg uid fuel
    = scan_folders_for_media fs (add_folders_to_db st F uid) xdg uid fuel := by
  have hadd1 := add_folders_to_db_eq_of_some st F uid un hun
  obtain ⟨fu1, fm1, fn1, tl1, ff1⟩ := add_folders_to_db_frame st F uid
  have hun1 : (add_folders_to_db st F uid).get_user_username uid = some un := by
    rw [get_user_username_congr _ st uid fu1]
    exact hun
  obtain ⟨gu2, gf2, gn2, tl2, gm2⟩ := scan_folders_for_media_frame fs
    (add_folders_to_db st F uid) xdg uid fuel
  have hun2 : (scan_folders_for_media fs (add_folders_to_db st F uid) xdg uid
      fuel).get_user_username uid = some un := by
    rw [get_user_username_congr _ (add_folders_to_db st F uid) uid gu2]
    exact hun1
  have hchain : ∀ p ∈ F, chain_resolves
      (scan_folders_for_media fs (add_folders_to_db st F uid) xdg uid
        fuel).folders uid p none = true := by
    intro p hp
    rw [gf2, hadd1]
    exact add_folders_foldl_chain F st uid p hp
  have hadd2 : add_folders_to_db
      (scan_folders_for_media fs (add_folders_to_db st F uid) xdg uid fuel)
      F uid
      = scan_folders_for_media fs (add_folders_to_db st F uid) xdg uid fuel := by
    rw [add_folders_to_db_eq_of_some _ F uid un hun2]
    exact add_folders_foldl_noop F _ uid hchain
  rw [hadd2]
  have hsf1 := scan_folders_for_media_eq_of_some fs
    (add_folders_to_db st F uid) xdg uid fuel un hun1
  have hroots2 : select_root_folders
      (scan_folders_for_media fs (add_folders_to_db st F uid) xdg uid fuel)
      uid
      = select_root_folders (add_folders_to_db st F uid) uid := by
    unfold select_root_folders
    rw [gf2]
  have hcomp : ∀ r ∈ select_root_folders
      (scan_folders_for_media fs (add_folders_to_db st F uid) xdg uid fuel)
      uid,
      scan_select_complete fs xdg un uid
        (scan_folders_for_media fs (add_folders_to_db st F uid) xdg uid
          fuel).folders fuel r (String.mk [])
        (scan_folders_for_media fs (add_folders_to_db st F uid) xdg uid
          fuel).media = true := by
    intro r hr
    rw [hroots2] at hr
    have hest := root_fold_establish fs xdg un uid fuel
      (add_folders_to_db st F uid).folders
      (select_root_folders (add_folders_to_db st F uid) uid)
      (add_folders_to_db st F uid) rfl r hr
    rw [← hsf1] at hest
    rw [gf2]
    exact hest
  rw [scan_folders_for_media_eq_of_some fs _ xdg uid fuel un hun2]
  exact root_fold_noop fs xdg un uid fuel _ _ hcomp

/-- C2: running `scan_root` twice in a row against the same filesystem view
inserts nothing on the second run — the second run returns exactly the store
the first run produced: at every path segment the (owner, parent, name)
folder lookup finds the row the first run found or created, and every file's
(owner, folder, filename) media lookup finds the existing row. -/
theorem c2_scan_root_idempotent (fs : DirListing) (tree : FsDir)
    (st : ScanStore) (xdg : String) (uid : Int) (fuel : Nat) :
    scan_root fs tree (scan_root fs tree st xdg uid fuel) xdg uid fuel
    = scan_root fs tree st xdg uid fuel := by
  cases hun : st.get_user_username uid with
  | none =>
    have h1 := scan_root_eq_of_none fs tree st xdg uid fuel hun
    rw [h1]
    exact h1
  | some un =>
    have hrun1 := scan_root_eq_of_some fs tree st xdg uid fuel un hun
    have husers : (scan_root fs tree st xdg uid fuel).users = st.users := by
      rw [hrun1]
      rw [(scan_folders_for_media_frame fs _ xdg uid fuel).1]
      rw [(add_folders_to_db_frame st _ uid).1]
    have hun2 : (scan_root fs tree st xdg uid fuel).get_user_username uid
        = some un := by
      rw [get_user_username_congr _ st uid husers]
      exact hun
    have hrun2 := scan_root_eq_of_some fs tree
      (scan_root fs tree st xdg uid fuel) xdg uid fuel un hun2
    rw [hrun2]
    conv_lhs => rw [hrun1]
    rw [hrun1]
    exact scan_pipeline_idem fs xdg un uid fuel _ st hun

end Galera
